import Mathlib

/-!
# Verification development for the tick downloader and the one-second aggregator

The definitions below embed the per-symbol worker of `downloader/main.go`
(two cursor-following pagination loops, normalisation into
`TradesQuotesCombined`, `sort.SliceStable` on `T`, the gob + lz4 write path),
the bounded dispatcher built on the buffered channel `sem`, and the bucketing
loop of `aggregate-1s/main.go`.

Conventions of the embedding:

* Go `int` and `int64` values are `Int`. The worker performs no arithmetic on
  record fields, and its only additions (`errorCount++`, the page offsets) are
  far from the 64-bit range; the volume sum of the aggregator wraps around as
  `int64` does (`wrapInt64`).
* A `float64` is carried as its 64-bit IEEE-754 pattern (`Float64.bits`); the
  downloader only copies such values, the aggregator also compares them
  (`Float64.lt`, `Float64.nonZero`).
* A Go slice field (`[]int`) is `Option (List Int)`, `none` being the `nil`
  slice, which is the zero value.
* Library calls whose result depends on the outside world (`http.Get`,
  `ioutil.ReadAll`, `json.Unmarshal`, `url.Parse`, `os.Create`, `io.Copy`,
  `Close`) are fields of `World`; the general theorems hold for every world.
  The local time zone of the aggregator is a parameter as well (`Zone`).
-/

namespace Polygon

/-! ## Data model -/

/-- A Go `float64`, carried as its IEEE-754 bit pattern. -/
structure Float64 where
  bits : Nat
  deriving DecidableEq, Repr, Inhabited

/-- A Go `[]int`; `none` is the `nil` slice. -/
abbrev IntSlice := Option (List Int)

/-- One element of `Trades.Results` (`main.go` lines 53-66). -/
structure TradeRecord where
  Conditions : IntSlice
  Correction : Int
  Exchange : Int
  ID : String
  ParticipantTimestamp : Int
  Price : Float64
  SequenceNumber : Int
  SipTimestamp : Int
  Size : Int
  Tape : Int
  TrfID : Int
  TrfTimestamp : Int
  deriving DecidableEq, Repr, Inhabited

/-- One element of `Quotes.Results` (`main.go` lines 74-87). -/
structure QuoteRecord where
  AskExchange : Int
  AskPrice : Float64
  AskSize : Int
  BidExchange : Int
  BidPrice : Float64
  BidSize : Int
  Conditions : IntSlice
  Indicators : IntSlice
  ParticipantTimestamp : Int
  SequenceNumber : Int
  SipTimestamp : Int
  Tape : Int
  deriving DecidableEq, Repr, Inhabited

/-- The decoded body of one page: `Trades` and `Quotes` of `main.go` share
this shape and differ in the record type only. -/
structure Paged (ρ : Type) where
  Results : List ρ
  Status : String
  RequestID : String
  NextURL : String
  deriving Repr

/-- The Go struct `Trades`. -/
abbrev Trades := Paged TradeRecord

/-- The Go struct `Quotes`. -/
abbrev Quotes := Paged QuoteRecord

/-- The Go struct `TradesQuotesCombined` (`main.go` lines 94-121). The
default of every field is the Go zero value, as after `var v
TradesQuotesCombined`. -/
structure TradesQuotesCombined where
  Sym : String := ""
  EV : String := ""
  T : Int := 0
  TF : Int := 0
  TQ : Int := 0
  TY : Int := 0
  TE : Int := 0
  TI : String := ""
  TP : Float64 := ⟨0⟩
  TS : Int := 0
  TC : IntSlice := none
  TX : Int := 0
  TR : Int := 0
  TZ : Int := 0
  QF : Int := 0
  QQ : Int := 0
  QY : Int := 0
  QI : IntSlice := none
  BX : Int := 0
  BP : Float64 := ⟨0⟩
  BS : Int := 0
  AX : Int := 0
  AP : Float64 := ⟨0⟩
  AS : Int := 0
  BSC : IntSlice := none
  BSZ : Int := 0
  deriving Inhabited

/-- The global `APIKEY` (`main.go` line 124). -/
def APIKEY : String := ""

/-- The global `OUTPUTDIR` (`main.go` line 125). -/
def OUTPUTDIR : String := "/scratch/historical/"

/-! ## Normalisation (`main.go` lines 346-363 and 452-469) -/

/-- The body of the trade append loop: `var v TradesQuotesCombined` followed
by the fourteen assignments of lines 348-361. -/
def normaliseTrade (symbol : String) (r : TradeRecord) : TradesQuotesCombined :=
  { Sym := symbol
    EV := "T"
    T := r.SipTimestamp
    TF := r.TrfTimestamp
    TQ := r.SequenceNumber
    TY := r.ParticipantTimestamp
    TC := r.Conditions
    TE := r.Correction
    TI := r.ID
    TP := r.Price
    TR := r.TrfID
    TS := r.Size
    TX := r.Exchange
    TZ := r.Tape }

/-- The body of the quote append loop: `var v TradesQuotesCombined` followed
by the fourteen assignments of lines 454-467. -/
def normaliseQuote (symbol : String) (q : QuoteRecord) : TradesQuotesCombined :=
  { Sym := symbol
    EV := "Q"
    T := q.SipTimestamp
    QQ := q.SequenceNumber
    QY := q.ParticipantTimestamp
    QI := q.Indicators
    BX := q.BidExchange
    BP := q.BidPrice
    BS := q.BidSize
    AX := q.AskExchange
    AP := q.AskPrice
    AS := q.AskSize
    BSC := q.Conditions
    BSZ := q.Tape }

/-! ## `sort.SliceStable`

`sort.SliceStable` belongs to the Go standard library. It runs the library's
`insertionSort` on blocks of twenty elements and merges the blocks with
`symMerge`. The embedding runs the library's `insertionSort` over the whole
slice: for a comparison that orders by a key, the stable sorted arrangement
of a slice is unique (`sortSliceStable_unique` below), so both give the same
slice. -/

/-- The inner loop of `insertionSort`,
`for j := i; j > a && less(j, j-1); j-- { swap(j, j-1) }`:
the element `x = data[i]` moves towards the front while it is less than its
predecessor. The front `data[a..i)` is passed nearest-first, i.e. reversed,
and the new front `data[a..i]` is returned reversed as well. -/
def sink {α : Type} (less : α → α → Bool) (x : α) : List α → List α
  | [] => [x]
  | y :: front => if less x y then y :: sink less x front else x :: y :: front

/-- The outer loop of `insertionSort`, `for i := a + 1; i < b; i++`: `done`
is the reversed, already ordered front, `rest` are the elements not looked at
yet. -/
def insertionSortLoop {α : Type} (less : α → α → Bool) : List α → List α → List α
  | done, [] => done.reverse
  | done, x :: rest => insertionSortLoop less (sink less x done) rest

/-- The library call `sort.SliceStable(x, less)` on the slice `x`. -/
def sortSliceStable {α : Type} (less : α → α → Bool) (x : List α) : List α :=
  insertionSortLoop less [] x

/-- The comparison closure of `main.go` line 497,
`tqcombined[i].T < tqcombined[j].T`. -/
def lessT (a b : TradesQuotesCombined) : Bool := decide (a.T < b.T)

/-- A comparison that orders by an integer key, the shape of `lessT`. -/
def lessBy {α : Type} (key : α → Int) (a b : α) : Bool := decide (key a < key b)

/-- Non-decreasing in `T`: each event's `T` is at most the `T` of every later
event. -/
def SortedByT (l : List TradesQuotesCombined) : Prop :=
  l.Pairwise (fun a b => a.T ≤ b.T)

/-- Each event's `T` is at most the `T` of the event that follows it. -/
def AdjacentSortedByT (l : List TradesQuotesCombined) : Prop :=
  l.Chain' (fun a b => a.T ≤ b.T)

/-! ## The outside world and what a worker does to it -/

/-- The `*http.Response` of a completed request together with the body read
by `ioutil.ReadAll`. `Header` lists the header map in the order in which
`range resp.Header` visits it. -/
structure Response where
  StatusCode : Int
  Header : List (String × List String)
  Body : String
  deriving DecidableEq, Repr

/-- The result of `http.Get(url)` followed by `ioutil.ReadAll(resp.Body)`. -/
inductive Fetched where
  /-- The call `http.Get` returned a non-nil `err`. -/
  | getError (err : String)
  /-- The call `ioutil.ReadAll` returned a non-nil `err`. -/
  | readError (err : String)
  /-- Both calls succeeded. -/
  | response (resp : Response)
  deriving DecidableEq, Repr

/-- The library calls of a worker whose results are not determined by the
program. The data source is keyed by the request URL. An `Option String` is a
Go `error`, `none` being `nil`. -/
structure World where
  /-- The calls `http.Get` and `ioutil.ReadAll`. -/
  httpGet : String → Fetched
  /-- The call `json.Unmarshal(body, &request)` into a fresh `Trades`; its error is
  ignored by the program, so only the resulting struct matters. -/
  unmarshalTrades : String → Trades
  /-- The call `json.Unmarshal(body, &qrequest)` into a fresh `Quotes`. -/
  unmarshalQuotes : String → Quotes
  /-- The call `url.Parse(next)` followed by `u.RequestURI()`; an error is the error of
  `url.Parse`. -/
  requestURI : String → Except String String
  /-- The error of `os.Create(zfilename)`. -/
  osCreate : String → Option String
  /-- The error of `io.Copy(zw, buf)`, `buf` holding the gob encoding of the
  given events and `zw` writing to the file of the given name. -/
  ioCopy : String → List TradesQuotesCombined → Option String
  /-- The error of `zw.Close()`. -/
  closeWriter : String → Option String
  /-- The error of `zfile.Close()`. -/
  closeFile : String → Option String

/-- The two record kinds a worker downloads. -/
inductive Kind where
  | trades
  | quotes
  deriving DecidableEq, Repr

/-- A line written to standard output. -/
inductive Line where
  /-- The line of `fmt.Println("HTTP Response Status:", resp.StatusCode, url, string(body))`. -/
  | httpResponseStatus (status : Int) (url body : String)
  /-- A line `fmt.Println(name, value)` of the header dump. -/
  | header (name value : String)
  /-- The line of `fmt.Println("possible 50k bug issue on trades: ", tradesURL)` and its
  quotes twin. -/
  | possible50k (kind : Kind) (url : String)
  /-- The line of `fmt.Println(err)`. -/
  | error (err : String)
  deriving DecidableEq, Repr

/-- The two values closed by the loop over `[]io.Closer{zw, zfile}`. -/
inductive Closer where
  | zw
  | zfile
  deriving DecidableEq, Repr

/-- An observable action of a worker, in program order. -/
inductive Event where
  /-- A page fetch, `http.Get(url)`. -/
  | get (url : String)
  /-- A line on standard output. -/
  | println (line : Line)
  /-- The call `enc.Encode(tqcombined)`: the events handed to the encoder. -/
  | encode (tqcombined : List TradesQuotesCombined)
  /-- The call `os.Create(zfilename)`. -/
  | create (zfilename : String)
  /-- The call `io.Copy(zw, buf)` into the named file. -/
  | copy (zfilename : String)
  /-- The call `c.Close()`. -/
  | close (c : Closer)

/-- The event is a page fetch. -/
def Event.isGet : Event → Bool
  | .get _ => true
  | _ => false

/-- The event belongs to the write path (encode, create, copy, close). -/
def Event.isOutput : Event → Bool
  | .get _ => false
  | .println _ => false
  | _ => true

/-- How a worker stops. -/
inductive Exit where
  /-- The worker function returned. -/
  | returned
  /-- A `panic`: the process crashes. -/
  | panicked (msg : String)
  /-- A `log.Fatalln`: the process exits with status 1. -/
  | fatal (msg : String)
  /-- The loop bound of the embedding was reached (the Go loop is unbounded). -/
  | outOfFuel
  deriving DecidableEq, Repr

/-- The variables a worker writes: its slice `tqcombined`, the globals
`errorCount` and (captured from the enclosing function) `err`, and the
actions performed so far. -/
structure Vars where
  tqcombined : List TradesQuotesCombined
  errorCount : Int
  err : Option String
  trace : List Event

/-- The header dump
`for name, values := range resp.Header { for _, value := range values { fmt.Println(name, value) } }`. -/
def dumpHeaders (resp : Response) : List Event :=
  resp.Header.flatMap fun nv => nv.2.map fun value => Event.println (Line.header nv.1 value)

/-! ## The pagination loops (`main.go` lines 282-387 and 393-493)

The trades loop and the quotes loop are the same text up to the record type,
the endpoint name in the first URL and in the warning, and the normalisation;
`Endpoint` holds what differs. -/

/-- What distinguishes the trades loop from the quotes loop. -/
structure Endpoint (ρ : Type) where
  kind : Kind
  unmarshal : String → Paged ρ
  normalise : String → ρ → TradesQuotesCombined

/-- The trades loop: `var request Trades`, lines 346-363. -/
def tradesEndpoint (w : World) : Endpoint TradeRecord :=
  { kind := Kind.trades, unmarshal := w.unmarshalTrades, normalise := normaliseTrade }

/-- The quotes loop: `var qrequest Quotes`, lines 452-469. -/
def quotesEndpoint (w : World) : Endpoint QuoteRecord :=
  { kind := Kind.quotes, unmarshal := w.unmarshalQuotes, normalise := normaliseQuote }

/-- The first trades URL, `fmt.Sprintf("https://api.polygon.io/v3/trades/%v?timestamp=%v&limit=50000&apiKey=%v", symbol, t, APIKEY)`. -/
def tradesURL (symbol t : String) : String :=
  "https://api.polygon.io/v3/trades/" ++ symbol ++ "?timestamp=" ++ t
    ++ "&limit=50000&apiKey=" ++ APIKEY

/-- The first quotes URL, `fmt.Sprintf("https://api.polygon.io/v3/quotes/%v?timestamp=%v&limit=50000&apiKey=%v", symbol, t, APIKEY)`. -/
def quotesURL (symbol t : String) : String :=
  "https://api.polygon.io/v3/quotes/" ++ symbol ++ "?timestamp=" ++ t
    ++ "&limit=50000&apiKey=" ++ APIKEY

/-- The URL of a further page, `fmt.Sprintf("https://api.polygon.io%v&apiKey=%v", tradeNextURL, APIKEY)`. -/
def cursorURL (nextURL : String) : String :=
  "https://api.polygon.io" ++ nextURL ++ "&apiKey=" ++ APIKEY

/-- The loop variables `tradesURL`, `tradeNextURL`, `tradeOffset` (and their
quotes twins). -/
structure Cursor where
  url : String
  nextURL : String
  offset : Int
  deriving DecidableEq, Repr

/-- The URL an iteration fetches:
`if tradeNextURL != "" { tradesURL = fmt.Sprintf(...) }`. -/
def Cursor.target (c : Cursor) : String :=
  if c.nextURL ≠ "" then cursorURL c.nextURL else c.url

/-- The outcome of one loop iteration. -/
inductive Ctl where
  /-- The end of the loop body was reached: iterate again. -/
  | next (c : Cursor) (v : Vars)
  /-- The `break` of the `else` branch. -/
  | done (v : Vars)
  /-- The worker stops inside the loop. -/
  | stop (x : Exit) (v : Vars)

/-- The suspected-truncation check of lines 330-341 (436-447): the events it
emits for a decoded page. -/
def truncationWarning {ρ : Type} (k : Kind) (url : String) (resp : Response)
    (request : Paged ρ) : List Event :=
  if request.Results.length = 50000 ∧ request.NextURL = "" then
    Event.println (Line.possible50k k url) :: dumpHeaders resp
  else []

/-- One iteration of a pagination loop (lines 289-387 for trades, 400-493 for
quotes). -/
def loopBody {ρ : Type} (w : World) (ep : Endpoint ρ) (symbol : String)
    (c : Cursor) (v : Vars) : Ctl :=
  let url := c.target
  let v := { v with trace := v.trace ++ [Event.get url] }
  match w.httpGet url with
  | Fetched.getError err => Ctl.stop (Exit.fatal err) v
  | Fetched.readError err => Ctl.stop (Exit.fatal err) v
  | Fetched.response resp =>
    if resp.StatusCode ≠ 200 then
      Ctl.stop (Exit.panicked "stopping now")
        { v with
          errorCount := v.errorCount + 1
          trace := v.trace
            ++ Event.println (Line.httpResponseStatus resp.StatusCode url resp.Body)
              :: dumpHeaders resp }
    else
      let request := ep.unmarshal resp.Body
      let v := { v with trace := v.trace ++ truncationWarning ep.kind url resp request }
      let v := { v with
        tqcombined := v.tqcombined ++ request.Results.map (ep.normalise symbol) }
      if request.NextURL ≠ "" then
        match w.requestURI request.NextURL with
        | Except.error err => Ctl.stop (Exit.panicked err) v
        | Except.ok uri =>
          Ctl.next { url := url, nextURL := uri, offset := c.offset + request.Results.length } v
      else
        Ctl.done v

/-- The result of a whole pagination loop. -/
inductive LoopResult where
  /-- The loop was left by `break`. -/
  | finished (v : Vars)
  /-- The worker stopped inside the loop. -/
  | aborted (x : Exit) (v : Vars)

/-- The loop `for { ... }`, run for at most `fuel` iterations. -/
def paginate {ρ : Type} (w : World) (ep : Endpoint ρ) (symbol : String) :
    Nat → Cursor → Vars → LoopResult
  | 0, _, v => LoopResult.aborted Exit.outOfFuel v
  | fuel + 1, c, v =>
    match loopBody w ep symbol c v with
    | Ctl.next c v => paginate w ep symbol fuel c v
    | Ctl.done v => LoopResult.finished v
    | Ctl.stop x v => LoopResult.aborted x v

/-! ## The write path (`main.go` lines 495-527) -/

/-- The output path, `fmt.Sprintf(OUTPUTDIR+t+"/%v-%v.gob.lz4", symbol, t)`,
for a day `t` that holds no `%`, as the dates of `main.go` do: the day is part
of the format string (`zfilename_eq_sprintf` relates this to `sprintf`). -/
def zfilename (t symbol : String) : String :=
  OUTPUTDIR ++ t ++ "/" ++ symbol ++ "-" ++ t ++ ".gob.lz4"

/-- The statement `if err != nil { fmt.Println(err) }`. -/
def printIfError : Option String → List Event
  | none => []
  | some err => [Event.println (Line.error err)]

/-- Lines 495-527: sort, encode, create, copy, close. The error of
`os.Create` is discarded (`zfile, _ := os.Create(zfilename)`) and the test
that follows reads the captured variable `err`; `io.Copy` assigns that
variable; the closing loop declares its own `err`. -/
def writeArchive (w : World) (t symbol : String) (v : Vars) : Vars :=
  let tqcombined := sortSliceStable lessT v.tqcombined
  let name := zfilename t symbol
  let copyErr := w.ioCopy name tqcombined
  { tqcombined := tqcombined
    errorCount := v.errorCount
    err := copyErr
    trace := v.trace
      ++ [Event.encode tqcombined, Event.create name]
      ++ printIfError v.err
      ++ [Event.copy name]
      ++ printIfError copyErr
      ++ [Event.close Closer.zw]
      ++ printIfError (w.closeWriter name)
      ++ [Event.close Closer.zfile]
      ++ printIfError (w.closeFile name) }

/-! ## The worker (`main.go` lines 270-529) -/

/-- The body of the goroutine started for `symbol` on day `t`: the trades
loop, the quotes loop, then the write path. `errorCount` and `err` are the
values of the shared variables when the worker runs (the program shares them
between workers without synchronisation; the embedding runs one worker on its
own); each loop may iterate `fuel` times. -/
def symbolWorker (w : World) (t symbol : String) (fuel : Nat)
    (errorCount : Int) (err : Option String) : Exit × Vars :=
  let v : Vars := { tqcombined := [], errorCount := errorCount, err := err, trace := [] }
  match paginate w (tradesEndpoint w) symbol fuel
      { url := tradesURL symbol t, nextURL := "", offset := 0 } v with
  | LoopResult.aborted x v => (x, v)
  | LoopResult.finished v =>
    match paginate w (quotesEndpoint w) symbol fuel
        { url := quotesURL symbol t, nextURL := "", offset := 0 } v with
    | LoopResult.aborted x v => (x, v)
    | LoopResult.finished v => (Exit.returned, writeArchive w t symbol v)

/-- The URLs fetched, in order. -/
def fetchedURLs (trace : List Event) : List String :=
  trace.filterMap fun e => match e with
    | Event.get url => some url
    | _ => none

/-- The event sequences handed to the encoder. -/
def encoded (trace : List Event) : List (List TradesQuotesCombined) :=
  trace.filterMap fun e => match e with
    | Event.encode evs => some evs
    | _ => none

/-- The lines printed, in order. -/
def printed (trace : List Event) : List Line :=
  trace.filterMap fun e => match e with
    | Event.println line => some line
    | _ => none

/-! ## Page chains -/

/-- One page of a data source: the URL it is served at, the response and the
decoded body. -/
structure Visit (ρ : Type) where
  url : String
  resp : Response
  page : Paged ρ

/-- The data source answers the page's URL with status 200 and the page. -/
def Serves {ρ : Type} (w : World) (ep : Endpoint ρ) (p : Visit ρ) : Prop :=
  w.httpGet p.url = Fetched.response p.resp ∧ p.resp.StatusCode = 200
    ∧ ep.unmarshal p.resp.Body = p.page

/-- The pages `P1 → P2 → ... → Pn → empty cursor` (`n ≥ 1`) starting at `url`:
every page is served with status 200, every page but the last has a
non-empty `next_url` whose request URI (never empty for `url.URL.RequestURI`)
leads to the page after it, and the last page has an empty `next_url`. -/
def IsChain {ρ : Type} (w : World) (ep : Endpoint ρ) : String → List (Visit ρ) → Prop
  | _, [] => False
  | url, [p] => p.url = url ∧ Serves w ep p ∧ p.page.NextURL = ""
  | url, p :: q :: rest =>
    p.url = url ∧ Serves w ep p ∧ p.page.NextURL ≠ ""
      ∧ ∃ uri, w.requestURI p.page.NextURL = Except.ok uri ∧ uri ≠ ""
        ∧ IsChain w ep (cursorURL uri) (q :: rest)

/-- The records of a list of pages, normalised, in page order. -/
def chainEvents {ρ : Type} (ep : Endpoint ρ) (symbol : String) (visits : List (Visit ρ)) :
    List TradesQuotesCombined :=
  visits.flatMap fun p => p.page.Results.map (ep.normalise symbol)

/-- The number of records over a list of pages. -/
def totalRecords {ρ : Type} (visits : List (Visit ρ)) : Nat :=
  (visits.map fun p => p.page.Results.length).sum

/-- The number of records on the last page of a list of pages. -/
def lastPageRecords {ρ : Type} (visits : List (Visit ρ)) : Nat :=
  match visits.getLast? with
  | some p => p.page.Results.length
  | none => 0

/-- The actions of a loop that walks a list of pages. -/
def chainTrace {ρ : Type} (ep : Endpoint ρ) (visits : List (Visit ρ)) : List Event :=
  visits.flatMap fun p => Event.get p.url :: truncationWarning ep.kind p.url p.resp p.page

/-- The data source answers `url` with a status other than 200. -/
def NonSuccess (w : World) (url : String) : Prop :=
  ∃ resp, w.httpGet url = Fetched.response resp ∧ resp.StatusCode ≠ 200

/-- The variables when a loop is left. -/
def LoopResult.vars : LoopResult → Vars
  | LoopResult.finished v => v
  | LoopResult.aborted _ v => v

/-- The variables when an iteration is left. -/
def Ctl.vars : Ctl → Vars
  | Ctl.next _ v => v
  | Ctl.done v => v
  | Ctl.stop _ v => v

/-! ## Concrete worlds -/

/-- A world given by tables: the response of each URL (any other URL fails
with a transport error), the decoded trades and quotes of each body (any other
body leaves the zero value), the request URI of each `next_url`, and no
output error. -/
def tableWorld (pages : List (String × Response)) (trades : List (String × Trades))
    (quotes : List (String × Quotes)) (uris : List (String × String)) : World :=
  { httpGet := fun url =>
      match pages.lookup url with
      | some resp => Fetched.response resp
      | none => Fetched.getError "no such host"
    unmarshalTrades := fun body =>
      (trades.lookup body).getD { Results := [], Status := "", RequestID := "", NextURL := "" }
    unmarshalQuotes := fun body =>
      (quotes.lookup body).getD { Results := [], Status := "", RequestID := "", NextURL := "" }
    requestURI := fun next =>
      match uris.lookup next with
      | some uri => Except.ok uri
      | none => Except.error "parse error"
    osCreate := fun _ => none
    ioCopy := fun _ _ => none
    closeWriter := fun _ => none
    closeFile := fun _ => none }

/-- A trade record that is zero but for its SIP timestamp and price. -/
def tradeAt (sip : Int) (price : Float64) : TradeRecord :=
  { Conditions := none, Correction := 0, Exchange := 0, ID := "", ParticipantTimestamp := 0,
    Price := price, SequenceNumber := 0, SipTimestamp := sip, Size := 0, Tape := 0,
    TrfID := 0, TrfTimestamp := 0 }

/-- A quote record that is zero but for its SIP timestamp and bid price. -/
def quoteAt (sip : Int) (bid : Float64) : QuoteRecord :=
  { AskExchange := 0, AskPrice := ⟨0⟩, AskSize := 0, BidExchange := 0, BidPrice := bid,
    BidSize := 0, Conditions := none, Indicators := none, ParticipantTimestamp := 0,
    SequenceNumber := 0, SipTimestamp := sip, Tape := 0 }

/-- The `float64` 9. -/
def f9 : Float64 := ⟨0x4022000000000000⟩

/-- The `float64` 10. -/
def f10 : Float64 := ⟨0x4024000000000000⟩

/-- The `float64` 11. -/
def f11 : Float64 := ⟨0x4026000000000000⟩

/-- A page without a cursor. -/
def lastPage {ρ : Type} (results : List ρ) : Paged ρ :=
  { Results := results, Status := "OK", RequestID := "", NextURL := "" }

/-- A page with a cursor. -/
def pageWithNext {ρ : Type} (results : List ρ) (next : String) : Paged ρ :=
  { Results := results, Status := "OK", RequestID := "", NextURL := next }

/-- A response with status 200, no header and the given body. -/
def ok200 (body : String) : Response := { StatusCode := 200, Header := [], Body := body }

/-- The scenario of the specification: symbol `AAA`, day `2022-12-23`, one
trades page `[{T:1000,P:10},{T:1000,P:11}]`, one quotes page `[{T:999,Bid:9}]`. -/
def scenarioWorld : World :=
  tableWorld
    [(tradesURL "AAA" "2022-12-23", ok200 "trades"),
     (quotesURL "AAA" "2022-12-23", ok200 "quotes")]
    [("trades", lastPage [tradeAt 1000 f10, tradeAt 1000 f11])]
    [("quotes", lastPage [quoteAt 999 f9])]
    []

/-- The trades page of the scenario. -/
def scenarioTrades : Visit TradeRecord :=
  { url := tradesURL "AAA" "2022-12-23", resp := ok200 "trades"
    page := lastPage [tradeAt 1000 f10, tradeAt 1000 f11] }

/-- The quotes page of the scenario. -/
def scenarioQuotes : Visit QuoteRecord :=
  { url := quotesURL "AAA" "2022-12-23", resp := ok200 "quotes"
    page := lastPage [quoteAt 999 f9] }

/-- The quote of the scenario, normalised. -/
def scenarioQ999 : TradesQuotesCombined := { Sym := "AAA", EV := "Q", T := 999, BP := f9 }

/-- The first trade of the scenario, normalised. -/
def scenarioT10 : TradesQuotesCombined := { Sym := "AAA", EV := "T", T := 1000, TP := f10 }

/-- The second trade of the scenario, normalised. -/
def scenarioT11 : TradesQuotesCombined := { Sym := "AAA", EV := "T", T := 1000, TP := f11 }

/-- A data source with the same trade twice on its only trades page and no
quote. -/
def duplicateWorld : World :=
  tableWorld
    [(tradesURL "AAA" "2022-12-23", ok200 "trades"),
     (quotesURL "AAA" "2022-12-23", ok200 "quotes")]
    [("trades", lastPage [tradeAt 1000 f10, tradeAt 1000 f10])]
    [("quotes", lastPage [])]
    []

/-- The trades page of `duplicateWorld`. -/
def duplicateTrades : Visit TradeRecord :=
  { url := tradesURL "AAA" "2022-12-23", resp := ok200 "trades"
    page := lastPage [tradeAt 1000 f10, tradeAt 1000 f10] }

/-- The quotes page of `duplicateWorld`. -/
def duplicateQuotes : Visit QuoteRecord :=
  { url := quotesURL "AAA" "2022-12-23", resp := ok200 "quotes", page := lastPage [] }

/-- The first cursor of `chainWorld`, as the data source writes it. -/
def cursor2 : String := "https://api.polygon.io:443:443/v3/trades/AAA?cursor=p2"

/-- The second cursor of `chainWorld`. -/
def cursor3 : String := "https://api.polygon.io:443:443/v3/trades/AAA?cursor=p3"

/-- A data source whose trades for `AAA` come on three pages
`P1 → P2 → P3 → empty cursor`. -/
def chainWorld : World :=
  tableWorld
    [(tradesURL "AAA" "2022-12-23", ok200 "p1"),
     (cursorURL "/v3/trades/AAA?cursor=p2", ok200 "p2"),
     (cursorURL "/v3/trades/AAA?cursor=p3", ok200 "p3"),
     (quotesURL "AAA" "2022-12-23", ok200 "quotes")]
    [("p1", pageWithNext [tradeAt 1000 f10, tradeAt 1001 f11] cursor2),
     ("p2", pageWithNext [tradeAt 1002 f10] cursor3),
     ("p3", lastPage [tradeAt 1003 f9])]
    [("quotes", lastPage [quoteAt 999 f9])]
    [(cursor2, "/v3/trades/AAA?cursor=p2"), (cursor3, "/v3/trades/AAA?cursor=p3")]

/-- The three trades pages of `chainWorld`. -/
def chainPages : List (Visit TradeRecord) :=
  [{ url := tradesURL "AAA" "2022-12-23", resp := ok200 "p1"
     page := pageWithNext [tradeAt 1000 f10, tradeAt 1001 f11] cursor2 },
   { url := cursorURL "/v3/trades/AAA?cursor=p2", resp := ok200 "p2"
     page := pageWithNext [tradeAt 1002 f10] cursor3 },
   { url := cursorURL "/v3/trades/AAA?cursor=p3", resp := ok200 "p3"
     page := lastPage [tradeAt 1003 f9] }]

/-- The variables of a worker that has done nothing yet. -/
def freshVars : Vars := { tqcombined := [], errorCount := 0, err := none, trace := [] }

/-- The cursor a loop starts with: the first URL, `var tradeNextURL string`,
`var tradeOffset int`. -/
def firstCursor (url : String) : Cursor := { url := url, nextURL := "", offset := 0 }

/-- The least number of pages of `limit` records that hold `total` records,
`ceil(total / limit)`. -/
def ceilDiv (total limit : Nat) : Nat := (total + limit - 1) / limit

/-- A data source with neither a trade nor a quote for `AAA`. -/
def quietWorld : World :=
  tableWorld
    [(tradesURL "AAA" "2022-12-23", ok200 "trades"),
     (quotesURL "AAA" "2022-12-23", ok200 "quotes")]
    [("trades", lastPage [])]
    [("quotes", lastPage [])]
    []

/-- The one, empty, trades page of `quietWorld`. -/
def quietTrades : Visit TradeRecord :=
  { url := tradesURL "AAA" "2022-12-23", resp := ok200 "trades", page := lastPage [] }

/-- A data source whose trades for `AAA` are a full page of 50000 records
with a cursor, followed by a page of one record. -/
def fullThenOneWorld : World :=
  tableWorld
    [(tradesURL "AAA" "2022-12-23", ok200 "p1"),
     (cursorURL "/v3/trades/AAA?cursor=p2", ok200 "p2")]
    [("p1", pageWithNext (List.replicate 50000 (tradeAt 1000 f10)) cursor2),
     ("p2", lastPage [tradeAt 1001 f11])]
    []
    [(cursor2, "/v3/trades/AAA?cursor=p2")]

/-- The two trades pages of `fullThenOneWorld`. -/
def fullThenOnePages : List (Visit TradeRecord) :=
  [{ url := tradesURL "AAA" "2022-12-23", resp := ok200 "p1"
     page := pageWithNext (List.replicate 50000 (tradeAt 1000 f10)) cursor2 },
   { url := cursorURL "/v3/trades/AAA?cursor=p2", resp := ok200 "p2"
     page := lastPage [tradeAt 1001 f11] }]

/-- A response with status 500. -/
def err500 : Response :=
  { StatusCode := 500, Header := [("Content-Type", ["text/plain"])], Body := "internal error" }

/-- A data source that serves a first trades page with a cursor and answers
the second request with HTTP 500. -/
def failingWorld : World :=
  tableWorld
    [(tradesURL "AAA" "2022-12-23", ok200 "p1"),
     (cursorURL "/v3/trades/AAA?cursor=p2", err500)]
    [("p1", pageWithNext [tradeAt 1000 f10, tradeAt 1001 f11] cursor2)]
    []
    [(cursor2, "/v3/trades/AAA?cursor=p2")]

/-- A data source whose only trades page for `AAA` holds exactly 50000
records and no cursor. -/
def fullPageWorld : World :=
  tableWorld
    [(tradesURL "AAA" "2022-12-23",
      { StatusCode := 200, Header := [("X-Request-Id", ["r1", "r2"])], Body := "full" })]
    [("full", lastPage (List.replicate 50000 (tradeAt 1000 f10)))]
    []
    []

/-- The response of `fullPageWorld`. -/
def fullPageResponse : Response :=
  { StatusCode := 200, Header := [("X-Request-Id", ["r1", "r2"])], Body := "full" }

/-- The event is a suspected-truncation line, of either kind. -/
def Event.isWarning : Event → Bool
  | .println (.possible50k _ _) => true
  | _ => false

/-! ## The bounded dispatcher (`main.go` lines 257-271 and 533-535)

The one iteration of the day loop (`days` has one entry):
`sem := make(chan bool, concurrency)` is created, the dispatch loop sends on
`sem` before each `go`, every worker receives from `sem` in a deferred call,
and the drain loop sends `cap(sem)` more times. The goroutines are interleaved
one statement at a time; a send on the full channel and a receive on the empty
channel cannot proceed. What a worker does between its start and its end does
not touch `sem` and is left out; a worker ends in one of the ways of `Exit`.

A `panic` or a `log.Fatalln` in a worker does not stop the other goroutines
at once. A panicking worker first runs its deferred `<-sem`; then the runtime
prints the panic and exits the process, and until it has done so the
dispatcher and the other workers keep running. A worker in `log.Fatalln` runs
no deferred call and keeps its slot, and the others keep running until
`os.Exit` has taken effect. The state records that the process is on its way
out (`dying`) and, as a step of its own, that it is gone (`dead`). -/

/-- Where the dispatcher stands. -/
inductive Pc where
  /-- At `sem <- true` of the dispatch loop for `symbols[i]`, or, when `i` is
  the number of symbols, at the end of the `range`. -/
  | send (i : Nat)
  /-- At `go func(symbol string) {...}(symbol)` for `symbols[i]`. -/
  | spawn (i : Nat)
  /-- At the test `i < cap(sem)` of the drain loop. -/
  | drain (i : Nat)
  /-- After the drain loop. -/
  | dayDone
  deriving DecidableEq, Repr

/-- A started worker has not yet run its deferred `<-sem` (`running`), has
run it, on return or while panicking (`released`), or is inside
`log.Fatalln`, where it never runs it (`exiting`). -/
inductive WorkerStatus where
  | running
  | released
  | exiting
  deriving DecidableEq, Repr

/-- The state of the dispatcher and its workers: the dispatcher's position,
the number of values buffered in `sem`, the workers started so far in start
order, whether a worker has panicked or called `log.Fatalln`, so that the
process is about to be terminated, and whether the process has terminated. -/
structure Sys where
  pc : Pc
  sem : Nat
  workers : List WorkerStatus
  dying : Bool
  dead : Bool
  deriving DecidableEq, Repr

/-- What takes the next step. -/
inductive Action where
  /-- The dispatcher executes its next statement. -/
  | dispatcher
  /-- The worker started `i`-th ends with the given exit. -/
  | worker (i : Nat) (exit : Exit)
  /-- The runtime terminates the process after a panic or `os.Exit`. -/
  | terminate
  deriving DecidableEq, Repr

/-- The state at `sem := make(chan bool, concurrency)`. -/
def Sys.init : Sys :=
  { pc := Pc.send 0, sem := 0, workers := [], dying := false, dead := false }

/-- The test `status != released`. -/
def WorkerStatus.holdsSlot (status : WorkerStatus) : Bool :=
  decide (status ≠ WorkerStatus.released)

/-- The number of workers started and not yet released. -/
def inFlight (s : Sys) : Nat := s.workers.countP WorkerStatus.holdsSlot

/-- One step of the system with `cap(sem) = concurrency` and `n` symbols;
`none` when the chosen step cannot be taken. While the process is not dead
every goroutine may step, also after a worker has panicked or called
`log.Fatalln`. A worker that returns runs its deferred `<-sem`; a worker that
panics runs it too and leaves the process dying; a worker that calls
`log.Fatalln` keeps its slot and leaves the process dying. A dying process may
terminate at any moment. -/
def step (concurrency n : Nat) (s : Sys) : Action → Option Sys
  | Action.dispatcher =>
    if s.dead then none
    else
      match s.pc with
      | Pc.send i =>
        if i < n then
          if s.sem < concurrency then some { s with sem := s.sem + 1, pc := Pc.spawn i }
          else none
        else some { s with pc := Pc.drain 0 }
      | Pc.spawn i =>
        some { s with workers := s.workers ++ [WorkerStatus.running], pc := Pc.send (i + 1) }
      | Pc.drain i =>
        if i < concurrency then
          if s.sem < concurrency then some { s with sem := s.sem + 1, pc := Pc.drain (i + 1) }
          else none
        else some { s with pc := Pc.dayDone }
      | Pc.dayDone => none
  | Action.worker i exit =>
    if s.dead then none
    else if s.workers[i]? = some WorkerStatus.running then
      match exit with
      | Exit.returned =>
        if 0 < s.sem then
          some { s with sem := s.sem - 1, workers := s.workers.set i WorkerStatus.released }
        else none
      | Exit.panicked _ =>
        if 0 < s.sem then
          some { s with
            sem := s.sem - 1
            workers := s.workers.set i WorkerStatus.released
            dying := true }
        else none
      | Exit.fatal _ =>
        some { s with workers := s.workers.set i WorkerStatus.exiting, dying := true }
      | Exit.outOfFuel => none
    else none
  | Action.terminate =>
    if s.dying && !s.dead then some { s with dead := true } else none

/-- The state after a schedule, if every step of it can be taken. -/
def run (concurrency n : Nat) : Sys → List Action → Option Sys
  | s, [] => some s
  | s, a :: rest =>
    match step concurrency n s a with
    | some s' => run concurrency n s' rest
    | none => none

/-- The state is reached by some schedule from the initial state. -/
def Reachable (concurrency n : Nat) (s : Sys) : Prop :=
  ∃ schedule : List Action, run concurrency n Sys.init schedule = some s

/-- The number of slots the dispatcher itself holds. -/
def held (concurrency : Nat) : Pc → Nat
  | Pc.send _ => 0
  | Pc.spawn _ => 1
  | Pc.drain i => i
  | Pc.dayDone => concurrency

/-- The number of workers started at a dispatcher position. -/
def started (n : Nat) : Pc → Nat
  | Pc.send i => i
  | Pc.spawn i => i
  | Pc.drain _ => n
  | Pc.dayDone => n

/-- The invariant of the system: every buffered value belongs to a worker in
flight or to the dispatcher, the buffer is within its capacity, and the
dispatcher position agrees with the workers started. -/
def Inv (concurrency n : Nat) (s : Sys) : Prop :=
  s.sem = inFlight s + held concurrency s.pc
    ∧ s.sem ≤ concurrency
    ∧ s.workers.length = started n s.pc
    ∧ (∀ i, s.pc = Pc.send i → i ≤ n)
    ∧ (∀ i, s.pc = Pc.spawn i → i < n)
    ∧ (∀ i, s.pc = Pc.drain i → i ≤ concurrency)

/-- The constant `concurrency := 50` of `main.go` line 258. -/
def concurrency : Nat := 50

/-- The error `os.Create` returns in `createFailsWorld`. -/
def createError : String :=
  "open /scratch/historical/2022-12-23/AAA-2022-12-23.gob.lz4: too many open files"

/-- The scenario of the specification at a moment when the process has no
file descriptor left: `os.Create` fails and returns a nil `*os.File`, on which
every later write and close fails with `invalid argument`. -/
def createFailsWorld : World :=
  { scenarioWorld with
    osCreate := fun _ => some createError
    ioCopy := fun _ _ => some "invalid argument"
    closeWriter := fun _ => some "invalid argument"
    closeFile := fun _ => some "invalid argument" }

/-- The accumulator with every event tagged by its position, sorted by the
comparison of `main.go` on the events. -/
def sortTagged (acc : List TradesQuotesCombined) : List (Nat × TradesQuotesCombined) :=
  sortSliceStable (fun p q => lessT p.2 q.2) acc.enum

/-- The variables after a page answered with status 200 was processed. -/
def afterPage {ρ : Type} (ep : Endpoint ρ) (symbol url : String) (resp : Response) (v : Vars) : Vars :=
  { v with
    tqcombined := v.tqcombined ++ (ep.unmarshal resp.Body).Results.map (ep.normalise symbol)
    trace := v.trace ++ Event.get url
      :: truncationWarning ep.kind url resp (ep.unmarshal resp.Body) }

/-- The events the write path adds to the trace. -/
def writeEvents (w : World) (t symbol : String) (v : Vars) : List Event :=
  [Event.encode (sortSliceStable lessT v.tqcombined), Event.create (zfilename t symbol)]
    ++ printIfError v.err
    ++ [Event.copy (zfilename t symbol)]
    ++ printIfError (w.ioCopy (zfilename t symbol) (sortSliceStable lessT v.tqcombined))
    ++ [Event.close Closer.zw]
    ++ printIfError (w.closeWriter (zfilename t symbol))
    ++ [Event.close Closer.zfile]
    ++ printIfError (w.closeFile (zfilename t symbol))

/-! ## The output path and `fmt.Sprintf` (`main.go` line 508)

The format string of line 508 is `OUTPUTDIR+t+"/%v-%v.gob.lz4"`: the output
root and the day are part of the format, the symbol and the day are the
arguments. -/

/-- The active entries of the slice `days` of `main.go` (lines 129-163; the
other dates of the literal are commented out). -/
def days : List String := ["2022-12-23"]

/-- The text `fmt.Sprintf` appends for arguments no verb has consumed,
`%!(EXTRA string=a, string=b)`. -/
def sprintfExtra (args : List String) : List Char :=
  "%!(EXTRA ".toList ++ (", ".intercalate (args.map fun a => "string=" ++ a)).toList ++ [')']

/-- The library call `fmt.Sprintf(format, args...)` on the characters of the
format, for string arguments and formats whose only verbs are `%v` and `%%`:
text is copied, `%v` is replaced by the next argument (by `%!v(MISSING)` when
none is left), `%%` by a percent sign, and left-over arguments are reported.
The result is `none` for a format with any other verb, flag, width or
precision. -/
def sprintfChars : List Char → List String → Option (List Char)
  | [], [] => some []
  | [], a :: args => some (sprintfExtra (a :: args))
  | c :: rest, args =>
    if c = '%' then
      match rest with
      | [] => none
      | verb :: rest =>
        if verb = 'v' then
          match args with
          | [] => (sprintfChars rest []).map fun out => "%!v(MISSING)".toList ++ out
          | a :: args => (sprintfChars rest args).map fun out => a.toList ++ out
        else if verb = '%' then (sprintfChars rest args).map fun out => '%' :: out
        else none
    else (sprintfChars rest args).map fun out => c :: out

/-- The library call `fmt.Sprintf(format, args...)` on strings, see
`sprintfChars`. -/
def sprintf (format : String) (args : List String) : Option String :=
  (sprintfChars format.toList args).map String.mk

/-! ## The one-second aggregator (`aggregate-1s/main.go`)

The program reads the trades of one symbol and day (`data.Results`, the
ticks), folds them into one record per second and prints the records. The
embedding covers the loop of lines 86-195 on an already decoded tick list. -/

/-- The 64 bits of a `float64`. -/
def Float64.word (x : Float64) : Nat := x.bits % 2 ^ 64

/-- The exponent and fraction bits of a `float64`, read as a number. -/
def Float64.magnitude (x : Float64) : Nat := x.word % 2 ^ 63

/-- The value is a NaN: the exponent is all ones and the fraction is not
zero. -/
def Float64.isNaN (x : Float64) : Bool := decide (0x7FF0000000000000 < x.magnitude)

/-- The position of a `float64` that is not a NaN among all such values:
sign and magnitude read as an integer, so that both zeros are at 0. -/
def Float64.rank (x : Float64) : Int :=
  if 2 ^ 63 ≤ x.word then -(x.magnitude : Int) else (x.magnitude : Int)

/-- The Go comparison `x < y` on `float64`, false when either is a NaN. -/
def Float64.lt (x y : Float64) : Bool :=
  !x.isNaN && !y.isNaN && decide (x.rank < y.rank)

/-- The Go comparison `x != 0` on `float64`: true but for the two zeros. -/
def Float64.nonZero (x : Float64) : Bool := decide (x.magnitude ≠ 0)

/-- Go `int64` arithmetic wraps around. -/
def wrapInt64 (x : Int) : Int := (x + 2 ^ 63) % 2 ^ 64 - 2 ^ 63

/-- One element of `Trades.Results` of the aggregator (`aggregate-1s/main.go`
lines 43-53). -/
structure Tick where
  T : Int
  Y : Int
  Q : Int
  I : String
  X : Int
  S : Int
  C : IntSlice
  P : Float64
  Z : Int
  deriving DecidableEq, Repr, Inhabited

/-- The Go struct `Agg` (`aggregate-1s/main.go` lines 12-23). `X` is never
`nil` in a stored record and is carried as a list; `TAt` is the instant
`time.Unix(0, nsec)`, carried as `nsec`. -/
structure Agg where
  V : Int
  VW : Float64
  O : Float64
  C : Float64
  H : Float64
  L : Float64
  X : List Int
  N : Int
  T : Int
  TAt : Int
  deriving DecidableEq, Repr, Inhabited

/-- The results of `Hour()`, `Minute()` and `Second()` of a `time.Time`. -/
structure Clock where
  hour : Int
  minute : Int
  second : Int
  deriving DecidableEq, Repr

/-- The local time zone of the process: the offset, in seconds east of UTC, in
force at a Unix time in seconds. -/
abbrev Zone := Int → Int

/-- The clock reading of `time.Unix(0, t*int64(time.Millisecond))` in the
local zone: the Unix second is `floor(nsec / 1e9)`, and hour, minute and
second are read off the seconds since midnight of the shifted time. -/
def tickTime (zone : Zone) (t : Int) : Clock :=
  let nsec := t * 1000000
  let sec := nsec / 1000000000
  let abs := sec + zone sec
  { hour := abs % 86400 / 3600, minute := abs % 3600 / 60, second := abs % 60 }

/-- The clock reading of a tick: `t := data.Results[i].T / 1000000` (Go
division truncates towards zero) and `tickTime` of it. -/
def Tick.clock (zone : Zone) (tick : Tick) : Clock :=
  tickTime zone (Int.tdiv tick.T 1000000)

/-- The function `appendStringIfMissing` (lines 204-211). -/
def appendStringIfMissing (slice : List Int) (i : Int) : List Int :=
  if slice.any (fun ele => decide (ele = i)) then slice else slice ++ [i]

/-- The variables of the loop (lines 87-96 and `agg.Aggregates`). -/
structure Bucket where
  hour : Int
  minute : Int
  second : Int
  size : Int
  open_ : Float64
  close : Float64
  high : Float64
  low : Float64
  count : Int
  exchanges : List Int
  aggregates : List Agg
  deriving DecidableEq, Repr

/-- The zero values the variables are declared with. -/
def Bucket.zero : Bucket :=
  { hour := 0, minute := 0, second := 0, size := 0, open_ := ⟨0⟩, close := ⟨0⟩, high := ⟨0⟩,
    low := ⟨0⟩, count := 0, exchanges := [], aggregates := [] }

/-- The branch `if i == 0` (lines 106-125). -/
def firstTick (zone : Zone) (tick : Tick) (v : Bucket) : Bucket :=
  { v with
    hour := (tick.clock zone).hour
    minute := (tick.clock zone).minute
    second := (tick.clock zone).second
    open_ := tick.P
    close := tick.P
    high := tick.P
    low := tick.P
    size := tick.S
    exchanges := appendStringIfMissing v.exchanges tick.X
    count := v.count + 1 }

/-- The branch of a tick in the same time window (lines 128-153). -/
def sameWindowTick (tick : Tick) (v : Bucket) : Bucket :=
  { v with
    close := tick.P
    high := if v.high.lt tick.P && tick.P.nonZero then tick.P else v.high
    low := if tick.P.lt v.low && tick.P.nonZero then tick.P else v.low
    exchanges := appendStringIfMissing v.exchanges tick.X
    size := wrapInt64 (v.size + tick.S)
    count := v.count + 1 }

/-- The record appended in the `else` branch (lines 158-175): `prev` is
`data.Results[i-1]`. -/
def savedRecord (prev : Tick) (v : Bucket) : Agg :=
  { V := v.size
    VW := ⟨0⟩
    O := v.open_
    C := v.close
    H := v.high
    L := v.low
    N := v.count
    X := v.exchanges
    T := Int.tdiv prev.T 1000000
    TAt := Int.tdiv prev.T 1000000 * 1000000 }

/-- The branch of a tick in a new time window (lines 155-193): save the
previous record, then reset. -/
def newWindowTick (zone : Zone) (prev tick : Tick) (v : Bucket) : Bucket :=
  { hour := (tick.clock zone).hour
    minute := (tick.clock zone).minute
    second := (tick.clock zone).second
    open_ := tick.P
    close := tick.P
    high := tick.P
    low := tick.P
    exchanges := appendStringIfMissing [] tick.X
    size := tick.S
    count := 0
    aggregates := v.aggregates ++ [savedRecord prev v] }

/-- The body of the loop for index `i`, `tick = data.Results[i]` and
`prev = data.Results[i-1]` (not read when `i = 0`). -/
def tickBody (zone : Zone) (i : Nat) (prev tick : Tick) (v : Bucket) : Bucket :=
  if i = 0 then firstTick zone tick v
  else if (tick.clock zone).hour = v.hour ∧ (tick.clock zone).minute = v.minute
      ∧ (tick.clock zone).second = v.second then
    sameWindowTick tick v
  else newWindowTick zone prev tick v

/-- The loop `for i := 0; i < total; i++` from index `i` on: `prev` is
`data.Results[i-1]` and the list holds `data.Results[i:]`. -/
def tickLoop (zone : Zone) : Nat → Tick → List Tick → Bucket → Bucket
  | _, _, [], v => v
  | i, prev, tick :: rest, v => tickLoop zone (i + 1) tick rest (tickBody zone i prev tick v)

/-- The value of `agg.Aggregates` after the loop over `data.Results`. -/
def aggregate1s (zone : Zone) (results : List Tick) : List Agg :=
  match results with
  | [] => []
  | first :: rest => (tickLoop zone 0 first (first :: rest) Bucket.zero).aggregates

/-- Two ticks share hour, minute and second. -/
def sameSecond (zone : Zone) (a b : Tick) : Bool := decide (a.clock zone = b.clock zone)

/-- The time windows of a tick list: its maximal runs of consecutive ticks
sharing hour, minute and second. -/
def windows (zone : Zone) (results : List Tick) : List (List Tick) :=
  results.splitBy (sameSecond zone)

/-- The indices `i ≥ 1` whose tick differs in hour, minute or second from the
tick at `i - 1`. -/
def windowStarts (zone : Zone) (results : List Tick) : List Nat :=
  (List.range results.length).filter fun i =>
    decide (1 ≤ i) && decide ((results[i]?).map (Tick.clock zone)
      ≠ (results[i - 1]?).map (Tick.clock zone))

/-- The sum of the sizes of a window as the loop computes it, in `int64`
arithmetic from the first tick on. -/
def volume : List Tick → Int
  | [] => 0
  | first :: more => more.foldl (fun size tick => wrapInt64 (size + tick.S)) first.S

/-- The time zone UTC. -/
def utc : Zone := fun _ => 0

/-- A tick that is zero but for its SIP timestamp in nanoseconds, its size and
its price. -/
def tickAt (nsec size : Int) (price : Float64) : Tick :=
  { T := nsec, Y := 0, Q := 0, I := "", X := 0, S := size, C := none, P := price, Z := 0 }

/-- The variables right after a tick has opened a window: `count` is 1 after
the first tick of the list and 0 after the first tick of a later window. -/
def opened (zone : Zone) (count : Int) (tick : Tick) (done : List Agg) : Bucket :=
  { hour := (tick.clock zone).hour
    minute := (tick.clock zone).minute
    second := (tick.clock zone).second
    open_ := tick.P
    close := tick.P
    high := tick.P
    low := tick.P
    exchanges := [tick.X]
    size := tick.S
    count := count
    aggregates := done }

/-- The variables after the ticks `first :: more` of one window. -/
def bucketOf (zone : Zone) (count : Int) (first : Tick) (more : List Tick)
    (done : List Agg) : Bucket :=
  more.foldl (fun v tick => sameWindowTick tick v) (opened zone count first done)

/-- The record the loop saves for a window, once a later tick opens the next
one. -/
def windowRecord (zone : Zone) (count : Int) : List Tick → Agg
  | [] => default
  | first :: more =>
    savedRecord ((first :: more).getLast (List.cons_ne_nil _ _)) (bucketOf zone count first more [])

/-- The records the loop saves for a list of windows, the first of which
starts with `count`. -/
def records (zone : Zone) (count : Int) : List (List Tick) → List Agg
  | [] => []
  | window :: later => windowRecord zone count window :: later.map (windowRecord zone 0)

/-- The number of adjacent pairs of ticks that differ in hour, minute or
second. -/
def changes (zone : Zone) : List Tick → Nat
  | a :: b :: rest => (if sameSecond zone a b then 0 else 1) + changes zone (b :: rest)
  | _ => 0

/-- Four trades of 2022-12-22: one at 14:30:00 UTC, two at 14:30:01 (the
second half a second after the first) and one at 14:30:02, with sizes 100,
200, 300 and 50. -/
def amcTicks : List Tick :=
  [tickAt 1671719400000000000 100 f10, tickAt 1671719401000000000 200 f11,
   tickAt 1671719401500000000 300 f9, tickAt 1671719402000000000 50 f10]

/-- The two trades of `amcTicks` that fall into the second 14:30:01. -/
def oneSecondTicks : List Tick :=
  [tickAt 1671719401000000000 200 f11, tickAt 1671719401500000000 300 f9]

/-! ## Properties of the sort -/

section SortLemmas

variable {α : Type}

theorem sink_perm (less : α → α → Bool) (x : α) (front : List α) :
    (sink less x front).Perm (x :: front) := by
  induction front with
  | nil => simp [sink]
  | cons y front ih =>
    unfold sink
    split
    · exact (List.Perm.cons y ih).trans (List.Perm.swap x y front)
    · exact List.Perm.refl _

theorem insertionSortLoop_perm (less : α → α → Bool) (done rest : List α) :
    (insertionSortLoop less done rest).Perm (done.reverse ++ rest) := by
  induction rest generalizing done with
  | nil => simp [insertionSortLoop]
  | cons x rest ih =>
    unfold insertionSortLoop
    refine (ih (sink less x done)).trans ?_
    have h1 : (sink less x done).reverse.Perm (done.reverse ++ [x]) := by
      refine (List.reverse_perm _).trans ((sink_perm less x done).trans ?_)
      refine (List.Perm.cons x (List.reverse_perm done).symm).trans ?_
      exact List.perm_append_singleton x done.reverse |>.symm
    simpa using h1.append_right rest

theorem sortSliceStable_perm (less : α → α → Bool) (x : List α) :
    (sortSliceStable less x).Perm x := by
  simpa [sortSliceStable] using insertionSortLoop_perm less [] x

theorem lessT_eq_lessBy : lessT = lessBy TradesQuotesCombined.T := rfl

theorem sink_ordered (key : α → Int) (x : α) (front : List α)
    (h : front.Pairwise (fun a b => key b ≤ key a)) :
    (sink (lessBy key) x front).Pairwise (fun a b => key b ≤ key a) := by
  induction front with
  | nil => simp [sink]
  | cons y front ih =>
    rw [List.pairwise_cons] at h
    unfold sink
    by_cases hxy : key x < key y
    · simp only [lessBy, hxy, decide_True, if_true]
      refine List.pairwise_cons.mpr ⟨?_, ih h.2⟩
      intro b hb
      rcases List.mem_cons.mp ((sink_perm _ x front).subset hb) with rfl | hb
      · exact le_of_lt hxy
      · exact h.1 b hb
    · simp only [lessBy, hxy, decide_False, Bool.false_eq_true, if_false]
      refine List.pairwise_cons.mpr ⟨?_, List.pairwise_cons.mpr h⟩
      intro b hb
      rcases List.mem_cons.mp hb with rfl | hb
      · exact not_lt.mp hxy
      · exact le_trans (h.1 b hb) (not_lt.mp hxy)

theorem insertionSortLoop_ordered (key : α → Int) (done rest : List α)
    (h : done.Pairwise (fun a b => key b ≤ key a)) :
    (insertionSortLoop (lessBy key) done rest).Pairwise (fun a b => key a ≤ key b) := by
  induction rest generalizing done with
  | nil => simpa [insertionSortLoop, List.pairwise_reverse] using h
  | cons x rest ih =>
    unfold insertionSortLoop
    exact ih _ (sink_ordered key x done h)

theorem sortSliceStable_ordered (key : α → Int) (x : List α) :
    (sortSliceStable (lessBy key) x).Pairwise (fun a b => key a ≤ key b) :=
  insertionSortLoop_ordered key [] x List.Pairwise.nil

theorem sink_filter (key : α → Int) (t : Int) (x : α) (front : List α) :
    (sink (lessBy key) x front).filter (fun a => decide (key a = t))
      = (x :: front).filter (fun a => decide (key a = t)) := by
  induction front with
  | nil => simp [sink]
  | cons y front ih =>
    unfold sink
    by_cases hxy : key x < key y
    · simp only [lessBy, hxy, decide_True, if_true]
      rw [List.filter_cons, ih]
      by_cases hx : key x = t
      · have hy : ¬ key y = t := by omega
        simp [List.filter_cons, hx, hy]
      · simp [List.filter_cons, hx]
    · simp only [lessBy, hxy, decide_False, Bool.false_eq_true, if_false]

theorem insertionSortLoop_filter (key : α → Int) (t : Int) (done rest : List α) :
    (insertionSortLoop (lessBy key) done rest).filter (fun a => decide (key a = t))
      = (done.filter (fun a => decide (key a = t))).reverse
          ++ rest.filter (fun a => decide (key a = t)) := by
  induction rest generalizing done with
  | nil => simp [insertionSortLoop, List.filter_reverse]
  | cons x rest ih =>
    unfold insertionSortLoop
    rw [ih, sink_filter]
    by_cases hx : key x = t <;> simp [List.filter_cons, hx]

/-- Stability: the events of one key keep their order. -/
theorem sortSliceStable_filter (key : α → Int) (t : Int) (x : List α) :
    (sortSliceStable (lessBy key) x).filter (fun a => decide (key a = t))
      = x.filter (fun a => decide (key a = t)) := by
  simp [sortSliceStable, insertionSortLoop_filter]

/-- An ordered list is determined by its per-key sublists: two lists that are
both non-decreasing in the key and agree on the events of every key are
equal. Hence every stable sort by the key returns the same list. -/
theorem stable_sorted_unique (key : α → Int) :
    ∀ (l₁ l₂ : List α),
      l₁.Pairwise (fun a b => key a ≤ key b) →
      l₂.Pairwise (fun a b => key a ≤ key b) →
      (∀ t, l₁.filter (fun a => decide (key a = t)) = l₂.filter (fun a => decide (key a = t))) →
      l₁ = l₂
  | [], l₂, _, _, h => by
    cases l₂ with
    | nil => rfl
    | cons b l₂ =>
      have := h (key b)
      simp [List.filter_cons] at this
  | a :: l₁, [], _, _, h => by
    have := h (key a)
    simp [List.filter_cons] at this
  | a :: l₁, b :: l₂, h₁, h₂, h => by
    rw [List.pairwise_cons] at h₁ h₂
    have hab : key a = key b := by
      have ha : a ∈ (b :: l₂).filter (fun c => decide (key c = key a)) := by
        rw [← h (key a)]; simp [List.filter_cons]
      have hb : b ∈ (a :: l₁).filter (fun c => decide (key c = key b)) := by
        rw [h (key b)]; simp [List.filter_cons]
      have ha' := (List.mem_filter.mp ha).1
      have hb' := (List.mem_filter.mp hb).1
      have h1 : key b ≤ key a := by
        rcases List.mem_cons.mp ha' with e | e
        · rw [e]
        · exact h₂.1 a e
      have h2 : key a ≤ key b := by
        rcases List.mem_cons.mp hb' with e | e
        · rw [e]
        · exact h₁.1 b e
      omega
    have hhead := h (key a)
    simp only [List.filter_cons, hab, decide_True, if_true] at hhead
    have e : a = b := (List.cons.inj hhead).1
    subst e
    have htail : l₁ = l₂ := by
      apply stable_sorted_unique key l₁ l₂ h₁.2 h₂.2
      intro t
      have := h t
      by_cases ht : key a = t
      · simp only [List.filter_cons, ht, decide_True, if_true] at this
        exact (List.cons.inj this).2
      · simpa [List.filter_cons, ht] using this
    rw [htail]

/-- Every list that is non-decreasing in the key and keeps, for each key, the
events of `x` in their order is the list `sortSliceStable` returns: the result
of a stable sort does not depend on the algorithm. -/
theorem sortSliceStable_unique (key : α → Int) (x out : List α)
    (hordered : out.Pairwise (fun a b => key a ≤ key b))
    (hstable : ∀ t, out.filter (fun a => decide (key a = t))
      = x.filter (fun a => decide (key a = t))) :
    out = sortSliceStable (lessBy key) x :=
  stable_sorted_unique key out (sortSliceStable (lessBy key) x) hordered
    (sortSliceStable_ordered key x)
    (fun t => (hstable t).trans (sortSliceStable_filter key t x).symm)

theorem sink_map {β : Type} (f : β → α) (less : α → α → Bool) (x : β) (front : List β) :
    (sink (fun a b => less (f a) (f b)) x front).map f = sink less (f x) (front.map f) := by
  induction front with
  | nil => rfl
  | cons y front ih =>
    simp only [sink, List.map_cons]
    split
    · simp [ih]
    · simp

theorem insertionSortLoop_map {β : Type} (f : β → α) (less : α → α → Bool)
    (done rest : List β) :
    (insertionSortLoop (fun a b => less (f a) (f b)) done rest).map f
      = insertionSortLoop less (done.map f) (rest.map f) := by
  induction rest generalizing done with
  | nil => simp [insertionSortLoop]
  | cons x rest ih =>
    simp only [insertionSortLoop, List.map_cons]
    rw [ih, sink_map]

/-- Sorting commutes with a map that the comparison factors through. -/
theorem sortSliceStable_map {β : Type} (f : β → α) (less : α → α → Bool) (x : List β) :
    (sortSliceStable (fun a b => less (f a) (f b)) x).map f
      = sortSliceStable less (x.map f) := by
  simpa [sortSliceStable] using insertionSortLoop_map f less [] x

theorem sortTagged_snd (acc : List TradesQuotesCombined) :
    (sortTagged acc).map Prod.snd = sortSliceStable lessT acc := by
  rw [sortTagged, sortSliceStable_map Prod.snd lessT, List.enum_map_snd]

theorem sortTagged_position (acc : List TradesQuotesCombined) :
    ∀ p ∈ sortTagged acc, acc[p.1]? = some p.2 := by
  intro p hp
  exact List.mem_enum_iff_getElem?.mp ((sortSliceStable_perm _ _).subset hp)

theorem sortTagged_stable (acc : List TradesQuotesCombined) :
    (sortTagged acc).Pairwise (fun p q => p.2.T = q.2.T → p.1 < q.1) := by
  rw [List.pairwise_iff_forall_sublist]
  intro p q hsub hT
  have hfilter := sortSliceStable_filter (fun p : Nat × TradesQuotesCombined => p.2.T)
    p.2.T acc.enum
  have h1 : List.Sublist [p, q]
      ((sortTagged acc).filter (fun a => decide (a.2.T = p.2.T))) := by
    have := hsub.filter (fun a : Nat × TradesQuotesCombined => decide (a.2.T = p.2.T))
    simpa [List.filter_cons, hT] using this
  have h2 : List.Sublist [p, q] acc.enum := by
    have h3 : (sortTagged acc).filter (fun a => decide (a.2.T = p.2.T))
        = acc.enum.filter (fun a => decide (a.2.T = p.2.T)) := hfilter
    rw [h3] at h1
    exact h1.trans (List.filter_sublist _)
  have h4 : List.Sublist [p.1, q.1] (List.range acc.length) := by
    have := h2.map Prod.fst
    simpa using this
  have h5 := (List.pairwise_lt_range acc.length).sublist h4
  simpa using h5

end SortLemmas

/-! ## Properties of the pagination loops -/

section Pagination

variable {ρ : Type}

theorem dumpHeaders_isOutput (resp : Response) :
    ∀ e ∈ dumpHeaders resp, e.isOutput = false := by
  intro e he
  simp only [dumpHeaders, List.mem_flatMap, List.mem_map] at he
  obtain ⟨_, _, _, _, rfl⟩ := he
  rfl

theorem dumpHeaders_isGet (resp : Response) :
    ∀ e ∈ dumpHeaders resp, e.isGet = false := by
  intro e he
  simp only [dumpHeaders, List.mem_flatMap, List.mem_map] at he
  obtain ⟨_, _, _, _, rfl⟩ := he
  rfl

theorem fetchedURLs_append (a b : List Event) :
    fetchedURLs (a ++ b) = fetchedURLs a ++ fetchedURLs b := by
  simp [fetchedURLs, List.filterMap_append]

theorem fetchedURLs_of_not_isGet (l : List Event) (h : ∀ e ∈ l, e.isGet = false) :
    fetchedURLs l = [] := by
  induction l with
  | nil => rfl
  | cons e l ih =>
    have he := h e (List.mem_cons_self _ _)
    have hl := ih fun e' he' => h e' (List.mem_cons_of_mem _ he')
    cases e <;> simp_all [fetchedURLs, Event.isGet]

theorem truncationWarning_isGet (k : Kind) (url : String) (resp : Response)
    (request : Paged ρ) : ∀ e ∈ truncationWarning k url resp request, e.isGet = false := by
  intro e he
  unfold truncationWarning at he
  split at he
  · rcases List.mem_cons.mp he with rfl | he
    · rfl
    · exact dumpHeaders_isGet resp e he
  · simp at he

theorem truncationWarning_isOutput (k : Kind) (url : String) (resp : Response)
    (request : Paged ρ) : ∀ e ∈ truncationWarning k url resp request, e.isOutput = false := by
  intro e he
  unfold truncationWarning at he
  split at he
  · rcases List.mem_cons.mp he with rfl | he
    · rfl
    · exact dumpHeaders_isOutput resp e he
  · simp at he

theorem fetchedURLs_chainTrace (ep : Endpoint ρ) (visits : List (Visit ρ)) :
    fetchedURLs (chainTrace ep visits) = visits.map fun p => p.url := by
  induction visits with
  | nil => rfl
  | cons p visits ih =>
    have h := fetchedURLs_of_not_isGet _ (truncationWarning_isGet ep.kind p.url p.resp p.page)
    have hcons : chainTrace ep (p :: visits)
        = [Event.get p.url] ++ (truncationWarning ep.kind p.url p.resp p.page
            ++ chainTrace ep visits) := by
      simp [chainTrace, List.flatMap_cons]
    rw [hcons, fetchedURLs_append, fetchedURLs_append, h, ih]
    simp [fetchedURLs]

/-- The loop walks a chain: page by page, it appends the records and leaves
by `break` after the last page. -/
theorem paginate_chain (w : World) (ep : Endpoint ρ) (symbol : String) :
    ∀ (visits : List (Visit ρ)) (fuel : Nat) (c : Cursor) (v : Vars),
      IsChain w ep c.target visits → visits.length ≤ fuel →
      paginate w ep symbol fuel c v
        = LoopResult.finished
            { v with
              tqcombined := v.tqcombined ++ chainEvents ep symbol visits
              trace := v.trace ++ chainTrace ep visits }
  | [], _, _, _, h, _ => by simp [IsChain] at h
  | [p], fuel, c, v, h, hf => by
    obtain ⟨hu, ⟨hget, hstatus, hpage⟩, hnext⟩ := h
    obtain ⟨fuel, rfl⟩ : ∃ n, fuel = n + 1 := ⟨fuel - 1, by simp at hf; omega⟩
    simp [paginate, loopBody, ← hu, hget, hstatus, hpage, hnext, chainEvents, chainTrace,
      List.flatMap_cons]
  | p :: q :: rest, fuel, c, v, h, hf => by
    obtain ⟨hu, ⟨hget, hstatus, hpage⟩, hnext, uri, huri, hne, hrest⟩ := h
    obtain ⟨fuel, rfl⟩ : ∃ n, fuel = n + 1 := ⟨fuel - 1, by simp at hf; omega⟩
    have htarget : Cursor.target
        { url := p.url, nextURL := uri,
          offset := c.offset + (p.page.Results.length : Int) }
          = cursorURL uri := by
      simp [Cursor.target, hne]
    have ih := paginate_chain w ep symbol (q :: rest) fuel
      { url := p.url, nextURL := uri,
        offset := c.offset + (p.page.Results.length : Int) }
      { v with
        tqcombined := v.tqcombined ++ p.page.Results.map (ep.normalise symbol)
        trace := v.trace ++ [Event.get p.url]
          ++ truncationWarning ep.kind p.url p.resp p.page }
      (by rw [htarget]; exact hrest) (by simp at hf ⊢; omega)
    simp only [paginate, loopBody, ← hu, hget, hstatus, hpage, hnext, huri]
    rw [if_pos hnext]
    refine ih.trans ?_
    simp [chainEvents, chainTrace, List.flatMap_cons]

theorem loopBody_getError (w : World) (ep : Endpoint ρ) (symbol : String)
    (c : Cursor) (v : Vars) (err : String) (h : w.httpGet c.target = Fetched.getError err) :
    loopBody w ep symbol c v
      = Ctl.stop (Exit.fatal err) { v with trace := v.trace ++ [Event.get c.target] } := by
  simp [loopBody, h]

theorem loopBody_readError (w : World) (ep : Endpoint ρ) (symbol : String)
    (c : Cursor) (v : Vars) (err : String) (h : w.httpGet c.target = Fetched.readError err) :
    loopBody w ep symbol c v
      = Ctl.stop (Exit.fatal err) { v with trace := v.trace ++ [Event.get c.target] } := by
  simp [loopBody, h]

theorem loopBody_nonSuccess (w : World) (ep : Endpoint ρ) (symbol : String)
    (c : Cursor) (v : Vars) (resp : Response)
    (h : w.httpGet c.target = Fetched.response resp) (hs : resp.StatusCode ≠ 200) :
    loopBody w ep symbol c v
      = Ctl.stop (Exit.panicked "stopping now")
          { v with
            errorCount := v.errorCount + 1
            trace := v.trace ++ Event.get c.target
              :: Event.println (Line.httpResponseStatus resp.StatusCode c.target resp.Body)
              :: dumpHeaders resp } := by
  simp [loopBody, h, hs]

theorem loopBody_last (w : World) (ep : Endpoint ρ) (symbol : String)
    (c : Cursor) (v : Vars) (resp : Response)
    (h : w.httpGet c.target = Fetched.response resp) (hs : resp.StatusCode = 200)
    (hn : (ep.unmarshal resp.Body).NextURL = "") :
    loopBody w ep symbol c v = Ctl.done (afterPage ep symbol c.target resp v) := by
  simp [loopBody, h, hs, hn, afterPage]

theorem loopBody_parseError (w : World) (ep : Endpoint ρ) (symbol : String)
    (c : Cursor) (v : Vars) (resp : Response) (err : String)
    (h : w.httpGet c.target = Fetched.response resp) (hs : resp.StatusCode = 200)
    (hn : (ep.unmarshal resp.Body).NextURL ≠ "")
    (hu : w.requestURI (ep.unmarshal resp.Body).NextURL = Except.error err) :
    loopBody w ep symbol c v
      = Ctl.stop (Exit.panicked err) (afterPage ep symbol c.target resp v) := by
  simp [loopBody, h, hs, hn, hu, afterPage]

theorem loopBody_more (w : World) (ep : Endpoint ρ) (symbol : String)
    (c : Cursor) (v : Vars) (resp : Response) (uri : String)
    (h : w.httpGet c.target = Fetched.response resp) (hs : resp.StatusCode = 200)
    (hn : (ep.unmarshal resp.Body).NextURL ≠ "")
    (hu : w.requestURI (ep.unmarshal resp.Body).NextURL = Except.ok uri) :
    loopBody w ep symbol c v
      = Ctl.next
          { url := c.target, nextURL := uri
            offset := c.offset + ((ep.unmarshal resp.Body).Results.length : Int) }
          (afterPage ep symbol c.target resp v) := by
  simp [loopBody, h, hs, hn, hu, afterPage]

theorem fetchedURLs_get_cons (url : String) (l : List Event)
    (h : ∀ e ∈ l, e.isGet = false) : fetchedURLs (Event.get url :: l) = [url] := by
  have := fetchedURLs_of_not_isGet l h
  rw [show Event.get url :: l = [Event.get url] ++ l from rfl, fetchedURLs_append, this]
  rfl

/-- What one iteration does to the variables, whatever the data source
answers: it fetches the target URL and prints diagnostics, nothing else;
either the fetched URL was not answered with a non-200 status and
`errorCount` is unchanged, or the iteration ends in
`panic("stopping now")` with `errorCount` one higher. -/
theorem loopBody_effect (w : World) (ep : Endpoint ρ) (symbol : String)
    (c : Cursor) (v : Vars) :
    ∃ added : List Event,
      (loopBody w ep symbol c v).vars.trace = v.trace ++ added
      ∧ (∀ e ∈ added, e.isOutput = false)
      ∧ (loopBody w ep symbol c v).vars.err = v.err
      ∧ fetchedURLs added = [c.target]
      ∧ ((¬ NonSuccess w c.target
            ∧ (loopBody w ep symbol c v).vars.errorCount = v.errorCount)
          ∨ (NonSuccess w c.target
            ∧ loopBody w ep symbol c v
              = Ctl.stop (Exit.panicked "stopping now") (loopBody w ep symbol c v).vars
            ∧ (loopBody w ep symbol c v).vars.errorCount = v.errorCount + 1)) := by
  cases hget : w.httpGet c.target with
  | getError err =>
    rw [loopBody_getError w ep symbol c v err hget]
    refine ⟨[Event.get c.target], rfl, by simp [Event.isOutput], rfl, rfl, Or.inl ⟨?_, rfl⟩⟩
    rintro ⟨resp, h, _⟩
    rw [hget] at h
    cases h
  | readError err =>
    rw [loopBody_readError w ep symbol c v err hget]
    refine ⟨[Event.get c.target], rfl, by simp [Event.isOutput], rfl, rfl, Or.inl ⟨?_, rfl⟩⟩
    rintro ⟨resp, h, _⟩
    rw [hget] at h
    cases h
  | response resp =>
    by_cases hstatus : resp.StatusCode = 200
    · have hgood : ¬ NonSuccess w c.target := by
        rintro ⟨resp', h, h'⟩
        rw [hget] at h
        cases h
        exact h' hstatus
      have hout : ∀ e ∈ Event.get c.target
          :: truncationWarning ep.kind c.target resp (ep.unmarshal resp.Body),
          e.isOutput = false := by
        intro e he
        rcases List.mem_cons.mp he with rfl | he
        · rfl
        · exact truncationWarning_isOutput _ _ _ _ e he
      have hurls := fetchedURLs_get_cons c.target _
        (truncationWarning_isGet ep.kind c.target resp (ep.unmarshal resp.Body))
      refine ⟨_, ?_, hout, ?_, hurls, Or.inl ⟨hgood, ?_⟩⟩
      all_goals
        by_cases hn : (ep.unmarshal resp.Body).NextURL = ""
        · rw [loopBody_last w ep symbol c v resp hget hstatus hn]; rfl
        · cases hu : w.requestURI (ep.unmarshal resp.Body).NextURL with
          | error err => rw [loopBody_parseError w ep symbol c v resp err hget hstatus hn hu]; rfl
          | ok uri => rw [loopBody_more w ep symbol c v resp uri hget hstatus hn hu]; rfl
    · have hbad : NonSuccess w c.target := ⟨resp, hget, hstatus⟩
      have hout : ∀ e ∈ Event.get c.target
          :: Event.println (Line.httpResponseStatus resp.StatusCode c.target resp.Body)
          :: dumpHeaders resp, e.isOutput = false := by
        intro e he
        rcases List.mem_cons.mp he with rfl | he
        · rfl
        · rcases List.mem_cons.mp he with rfl | he
          · rfl
          · exact dumpHeaders_isOutput _ e he
      have hurls := fetchedURLs_get_cons c.target
        (Event.println (Line.httpResponseStatus resp.StatusCode c.target resp.Body)
          :: dumpHeaders resp)
        (by
          intro e he
          rcases List.mem_cons.mp he with rfl | he
          · rfl
          · exact dumpHeaders_isGet _ e he)
      rw [loopBody_nonSuccess w ep symbol c v resp hget hstatus]
      exact ⟨_, rfl, hout, rfl, hurls, Or.inr ⟨hbad, rfl, rfl⟩⟩

/-- What a whole loop does to the variables, whatever the data source
answers. -/
theorem paginate_effect (w : World) (ep : Endpoint ρ) (symbol : String) :
    ∀ (fuel : Nat) (c : Cursor) (v : Vars),
      ∃ added : List Event,
        (paginate w ep symbol fuel c v).vars.trace = v.trace ++ added
        ∧ (∀ e ∈ added, e.isOutput = false)
        ∧ (paginate w ep symbol fuel c v).vars.err = v.err
        ∧ (((∀ url ∈ fetchedURLs added, ¬ NonSuccess w url)
              ∧ (paginate w ep symbol fuel c v).vars.errorCount = v.errorCount)
            ∨ (paginate w ep symbol fuel c v
                = LoopResult.aborted (Exit.panicked "stopping now")
                    (paginate w ep symbol fuel c v).vars
              ∧ (paginate w ep symbol fuel c v).vars.errorCount = v.errorCount + 1))
  | 0, c, v => ⟨[], by simp [paginate, LoopResult.vars], by simp, rfl,
      Or.inl ⟨by simp [fetchedURLs], rfl⟩⟩
  | fuel + 1, c, v => by
    obtain ⟨added, htrace, hout, herr, hurls, hcase⟩ := loopBody_effect w ep symbol c v
    cases hbody : loopBody w ep symbol c v with
    | next c' v' =>
      rw [hbody] at htrace herr hcase
      simp only [Ctl.vars] at htrace herr hcase
      obtain ⟨added', htrace', hout', herr', hcase'⟩ := paginate_effect w ep symbol fuel c' v'
      have hgood : ¬ NonSuccess w c.target ∧ v'.errorCount = v.errorCount := by
        rcases hcase with h | ⟨_, h, _⟩
        · exact h
        · cases h
      simp only [paginate, hbody]
      refine ⟨added ++ added', ?_, ?_, ?_, ?_⟩
      · rw [htrace', htrace, List.append_assoc]
      · intro e he
        rcases List.mem_append.mp he with he | he
        · exact hout e he
        · exact hout' e he
      · rw [herr', herr]
      · rcases hcase' with ⟨h1, h2⟩ | ⟨h1, h2⟩
        · refine Or.inl ⟨?_, by rw [h2, hgood.2]⟩
          intro url hurl
          rw [fetchedURLs_append, hurls] at hurl
          rcases List.mem_append.mp hurl with hurl | hurl
          · rw [List.mem_singleton.mp hurl]
            exact hgood.1
          · exact h1 url hurl
        · exact Or.inr ⟨h1, by rw [h2, hgood.2]⟩
    | done v' =>
      rw [hbody] at htrace herr hcase
      simp only [Ctl.vars] at htrace herr hcase
      have hgood : ¬ NonSuccess w c.target ∧ v'.errorCount = v.errorCount := by
        rcases hcase with h | ⟨_, h, _⟩
        · exact h
        · cases h
      simp only [paginate, hbody, LoopResult.vars]
      refine ⟨added, htrace, hout, herr, Or.inl ⟨?_, hgood.2⟩⟩
      intro url hurl
      rw [hurls] at hurl
      rw [List.mem_singleton.mp hurl]
      exact hgood.1
    | stop x v' =>
      rw [hbody] at htrace herr hcase
      simp only [Ctl.vars] at htrace herr hcase
      simp only [paginate, hbody, LoopResult.vars]
      refine ⟨added, htrace, hout, herr, ?_⟩
      rcases hcase with ⟨h1, h2⟩ | ⟨_, h1, h2⟩
      · refine Or.inl ⟨?_, h2⟩
        intro url hurl
        rw [hurls] at hurl
        rw [List.mem_singleton.mp hurl]
        exact h1
      · refine Or.inr ⟨?_, h2⟩
        cases h1
        rfl

theorem loopBody_stop_ne_returned (w : World) (ep : Endpoint ρ) (symbol : String)
    (c : Cursor) (v v' : Vars) (x : Exit) (h : loopBody w ep symbol c v = Ctl.stop x v') :
    x ≠ Exit.returned := by
  rintro rfl
  cases hget : w.httpGet c.target with
  | getError err => rw [loopBody_getError w ep symbol c v err hget] at h; cases h
  | readError err => rw [loopBody_readError w ep symbol c v err hget] at h; cases h
  | response resp =>
    by_cases hstatus : resp.StatusCode = 200
    · by_cases hn : (ep.unmarshal resp.Body).NextURL = ""
      · rw [loopBody_last w ep symbol c v resp hget hstatus hn] at h; cases h
      · cases hu : w.requestURI (ep.unmarshal resp.Body).NextURL with
        | error err =>
          rw [loopBody_parseError w ep symbol c v resp err hget hstatus hn hu] at h; cases h
        | ok uri =>
          rw [loopBody_more w ep symbol c v resp uri hget hstatus hn hu] at h; cases h
    · rw [loopBody_nonSuccess w ep symbol c v resp hget hstatus] at h; cases h

theorem paginate_aborted_ne_returned (w : World) (ep : Endpoint ρ) (symbol : String) :
    ∀ (fuel : Nat) (c : Cursor) (v v' : Vars) (x : Exit),
      paginate w ep symbol fuel c v = LoopResult.aborted x v' → x ≠ Exit.returned
  | 0, c, v, v', x, h => by
    simp only [paginate] at h
    cases h
    simp
  | fuel + 1, c, v, v', x, h => by
    cases hbody : loopBody w ep symbol c v with
    | next c1 v1 =>
      simp only [paginate, hbody] at h
      exact paginate_aborted_ne_returned w ep symbol fuel c1 v1 v' x h
    | done v1 => simp only [paginate, hbody] at h; cases h
    | stop x1 v1 =>
      simp only [paginate, hbody] at h
      cases h
      exact loopBody_stop_ne_returned w ep symbol c v v' x hbody

end Pagination

/-! ## Properties of the worker -/

theorem writeArchive_trace (w : World) (t symbol : String) (v : Vars) :
    (writeArchive w t symbol v).trace = v.trace ++ writeEvents w t symbol v := by
  simp [writeArchive, writeEvents]

theorem encoded_append (a b : List Event) : encoded (a ++ b) = encoded a ++ encoded b := by
  simp [encoded, List.filterMap_append]

theorem printed_append (a b : List Event) : printed (a ++ b) = printed a ++ printed b := by
  simp [printed, List.filterMap_append]

theorem encoded_of_not_isOutput (l : List Event) (h : ∀ e ∈ l, e.isOutput = false) :
    encoded l = [] := by
  induction l with
  | nil => rfl
  | cons e l ih =>
    have he := h e (List.mem_cons_self _ _)
    have hl := ih fun e' he' => h e' (List.mem_cons_of_mem _ he')
    cases e <;> simp_all [encoded, Event.isOutput]

theorem encoded_printIfError (err : Option String) : encoded (printIfError err) = [] := by
  cases err <;> rfl

theorem fetchedURLs_printIfError (err : Option String) :
    fetchedURLs (printIfError err) = [] := by
  cases err <;> rfl

theorem encoded_writeEvents (w : World) (t symbol : String) (v : Vars) :
    encoded (writeEvents w t symbol v) = [sortSliceStable lessT v.tqcombined] := by
  simp only [writeEvents, encoded_append, encoded_printIfError]
  rfl

theorem fetchedURLs_writeEvents (w : World) (t symbol : String) (v : Vars) :
    fetchedURLs (writeEvents w t symbol v) = [] := by
  simp only [writeEvents, fetchedURLs_append, fetchedURLs_printIfError]
  rfl

/-- The two ways a worker run ends, whatever the world answers: either the
worker stops inside a loop, having performed no action of the write path, or
both loops are left by `break` and the write path runs on the accumulator. -/
theorem symbolWorker_cases (w : World) (t symbol : String) (fuel : Nat)
    (errorCount : Int) (err : Option String) :
    ((symbolWorker w t symbol fuel errorCount err).1 ≠ Exit.returned
        ∧ (∀ e ∈ (symbolWorker w t symbol fuel errorCount err).2.trace, e.isOutput = false)
        ∧ (((∀ url ∈ fetchedURLs (symbolWorker w t symbol fuel errorCount err).2.trace,
                ¬ NonSuccess w url)
              ∧ (symbolWorker w t symbol fuel errorCount err).2.errorCount = errorCount)
            ∨ ((symbolWorker w t symbol fuel errorCount err).1 = Exit.panicked "stopping now"
              ∧ (symbolWorker w t symbol fuel errorCount err).2.errorCount = errorCount + 1)))
    ∨ ∃ v : Vars,
        symbolWorker w t symbol fuel errorCount err
          = (Exit.returned, writeArchive w t symbol v)
        ∧ v.errorCount = errorCount
        ∧ v.err = err
        ∧ (∀ e ∈ v.trace, e.isOutput = false)
        ∧ (∀ url ∈ fetchedURLs v.trace, ¬ NonSuccess w url) := by
  obtain ⟨a1, ht1, ho1, he1, hc1⟩ := paginate_effect w (tradesEndpoint w) symbol fuel
    { url := tradesURL symbol t, nextURL := "", offset := 0 }
    { tqcombined := [], errorCount := errorCount, err := err, trace := [] }
  cases h1 : paginate w (tradesEndpoint w) symbol fuel
    { url := tradesURL symbol t, nextURL := "", offset := 0 }
    { tqcombined := [], errorCount := errorCount, err := err, trace := [] } with
  | aborted x v1 =>
    have hx := paginate_aborted_ne_returned _ _ _ _ _ _ _ _ h1
    rw [h1] at ht1 he1 hc1
    simp only [LoopResult.vars, List.nil_append] at ht1 he1 hc1
    have hsw : symbolWorker w t symbol fuel errorCount err = (x, v1) := by
      simp only [symbolWorker, h1]
    rw [hsw]
    left
    refine ⟨hx, by rw [ht1]; exact ho1, ?_⟩
    rcases hc1 with ⟨h, h'⟩ | ⟨h, h'⟩
    · exact Or.inl ⟨by rw [ht1]; exact h, h'⟩
    · refine Or.inr ⟨?_, h'⟩
      cases h
      rfl
  | finished v1 =>
    rw [h1] at ht1 he1 hc1
    simp only [LoopResult.vars, List.nil_append] at ht1 he1 hc1
    have hg1 : (∀ url ∈ fetchedURLs a1, ¬ NonSuccess w url) ∧ v1.errorCount = errorCount := by
      rcases hc1 with h | ⟨h, _⟩
      · exact h
      · cases h
    obtain ⟨a2, ht2, ho2, he2, hc2⟩ := paginate_effect w (quotesEndpoint w) symbol fuel
      { url := quotesURL symbol t, nextURL := "", offset := 0 } v1
    cases h2 : paginate w (quotesEndpoint w) symbol fuel
      { url := quotesURL symbol t, nextURL := "", offset := 0 } v1 with
    | aborted x v2 =>
      have hx := paginate_aborted_ne_returned _ _ _ _ _ _ _ _ h2
      rw [h2] at ht2 he2 hc2
      simp only [LoopResult.vars] at ht2 he2 hc2
      have hsw : symbolWorker w t symbol fuel errorCount err = (x, v2) := by
        simp only [symbolWorker, h1, h2]
      rw [hsw]
      left
      refine ⟨hx, ?_, ?_⟩
      · intro e he
        rw [ht2, ht1] at he
        rcases List.mem_append.mp he with he | he
        · exact ho1 e he
        · exact ho2 e he
      · rcases hc2 with ⟨h, h'⟩ | ⟨h, h'⟩
        · refine Or.inl ⟨?_, by rw [h', hg1.2]⟩
          intro url hurl
          rw [ht2, ht1, fetchedURLs_append] at hurl
          rcases List.mem_append.mp hurl with hurl | hurl
          · exact hg1.1 url hurl
          · exact h url hurl
        · refine Or.inr ⟨?_, by rw [h', hg1.2]⟩
          cases h
          rfl
    | finished v2 =>
      rw [h2] at ht2 he2 hc2
      simp only [LoopResult.vars] at ht2 he2 hc2
      have hg2 : (∀ url ∈ fetchedURLs a2, ¬ NonSuccess w url)
          ∧ v2.errorCount = v1.errorCount := by
        rcases hc2 with h | ⟨h, _⟩
        · exact h
        · cases h
      have hsw : symbolWorker w t symbol fuel errorCount err
          = (Exit.returned, writeArchive w t symbol v2) := by
        simp only [symbolWorker, h1, h2]
      right
      refine ⟨v2, hsw, by rw [hg2.2, hg1.2], by rw [he2, he1], ?_, ?_⟩
      · intro e he
        rw [ht2, ht1] at he
        rcases List.mem_append.mp he with he | he
        · exact ho1 e he
        · exact ho2 e he
      · intro url hurl
        rw [ht2, ht1, fetchedURLs_append] at hurl
        rcases List.mem_append.mp hurl with hurl | hurl
        · exact hg1.1 url hurl
        · exact hg2.1 url hurl

/-- A worker over a trades chain and a quotes chain leaves both loops by
`break` and runs the write path on the trades followed by the quotes. -/
theorem symbolWorker_chain (w : World) (t symbol : String) (fuel : Nat)
    (errorCount : Int) (err : Option String)
    (tv : List (Visit TradeRecord)) (qv : List (Visit QuoteRecord))
    (ht : IsChain w (tradesEndpoint w) (tradesURL symbol t) tv)
    (hq : IsChain w (quotesEndpoint w) (quotesURL symbol t) qv)
    (hft : tv.length ≤ fuel) (hfq : qv.length ≤ fuel) :
    symbolWorker w t symbol fuel errorCount err
      = (Exit.returned, writeArchive w t symbol
          { tqcombined := chainEvents (tradesEndpoint w) symbol tv
              ++ chainEvents (quotesEndpoint w) symbol qv
            errorCount := errorCount
            err := err
            trace := chainTrace (tradesEndpoint w) tv ++ chainTrace (quotesEndpoint w) qv }) := by
  have h1 := paginate_chain w (tradesEndpoint w) symbol tv fuel
    { url := tradesURL symbol t, nextURL := "", offset := 0 }
    { tqcombined := [], errorCount := errorCount, err := err, trace := [] }
    (by simpa [Cursor.target] using ht) hft
  have h2 := paginate_chain w (quotesEndpoint w) symbol qv fuel
    { url := quotesURL symbol t, nextURL := "", offset := 0 }
    { tqcombined := chainEvents (tradesEndpoint w) symbol tv, errorCount := errorCount,
      err := err, trace := chainTrace (tradesEndpoint w) tv }
    (by simpa [Cursor.target] using hq) hfq
  simp only [List.nil_append] at h1
  simp only [symbolWorker, h1, h2]

theorem scenarioTrades_chain :
    IsChain scenarioWorld (tradesEndpoint scenarioWorld) (tradesURL "AAA" "2022-12-23")
      [scenarioTrades] := by
  refine ⟨rfl, ⟨?_, rfl, ?_⟩, rfl⟩
  · decide
  · rfl

theorem scenarioQuotes_chain :
    IsChain scenarioWorld (quotesEndpoint scenarioWorld) (quotesURL "AAA" "2022-12-23")
      [scenarioQuotes] := by
  refine ⟨rfl, ⟨?_, rfl, ?_⟩, rfl⟩
  · decide
  · rfl

theorem duplicateTrades_chain :
    IsChain duplicateWorld (tradesEndpoint duplicateWorld) (tradesURL "AAA" "2022-12-23")
      [duplicateTrades] := by
  refine ⟨rfl, ⟨?_, rfl, ?_⟩, rfl⟩
  · decide
  · rfl

theorem duplicateQuotes_chain :
    IsChain duplicateWorld (quotesEndpoint duplicateWorld) (quotesURL "AAA" "2022-12-23")
      [duplicateQuotes] := by
  refine ⟨rfl, ⟨?_, rfl, ?_⟩, rfl⟩
  · decide
  · rfl

theorem chainEvents_length {ρ : Type} (ep : Endpoint ρ) (symbol : String)
    (visits : List (Visit ρ)) :
    (chainEvents ep symbol visits).length = totalRecords visits := by
  induction visits with
  | nil => rfl
  | cons p visits ih =>
    simp only [chainEvents, List.flatMap_cons, List.length_append, List.length_map,
      totalRecords, List.map_cons, List.sum_cons] at ih ⊢
    rw [ih]

theorem encoded_chainTrace {ρ : Type} (ep : Endpoint ρ) (visits : List (Visit ρ)) :
    encoded (chainTrace ep visits) = [] := by
  apply encoded_of_not_isOutput
  intro e he
  simp only [chainTrace, List.mem_flatMap] at he
  obtain ⟨p, _, he⟩ := he
  rcases List.mem_cons.mp he with rfl | he
  · rfl
  · exact truncationWarning_isOutput _ _ _ _ e he

/-- What a worker over two chains hands to the encoder and what it fetches. -/
theorem symbolWorker_chain_encoded (w : World) (t symbol : String) (fuel : Nat)
    (errorCount : Int) (err : Option String)
    (tv : List (Visit TradeRecord)) (qv : List (Visit QuoteRecord))
    (ht : IsChain w (tradesEndpoint w) (tradesURL symbol t) tv)
    (hq : IsChain w (quotesEndpoint w) (quotesURL symbol t) qv)
    (hft : tv.length ≤ fuel) (hfq : qv.length ≤ fuel) :
    encoded (symbolWorker w t symbol fuel errorCount err).2.trace
        = [sortSliceStable lessT (chainEvents (tradesEndpoint w) symbol tv
            ++ chainEvents (quotesEndpoint w) symbol qv)]
      ∧ fetchedURLs (symbolWorker w t symbol fuel errorCount err).2.trace
        = (tv.map fun p => p.url) ++ (qv.map fun p => p.url) := by
  rw [symbolWorker_chain w t symbol fuel errorCount err tv qv ht hq hft hfq]
  simp only [writeArchive_trace, encoded_append, fetchedURLs_append, encoded_chainTrace,
    fetchedURLs_chainTrace, encoded_writeEvents, fetchedURLs_writeEvents, List.nil_append,
    List.append_nil, and_self]

/-! ## The claims on the archive (C1, C2, C3) -/

/-- C1: whatever the data source answers, every event sequence a worker hands
to the encoder is sorted by `T` non-decreasing: each event's `T` is at most
the `T` of every later event, in particular of the event that follows it. -/
theorem archive_sorted_by_T (w : World) (t symbol : String) (fuel : Nat)
    (errorCount : Int) (err : Option String) (evs : List TradesQuotesCombined)
    (h : evs ∈ encoded (symbolWorker w t symbol fuel errorCount err).2.trace) :
    SortedByT evs ∧ AdjacentSortedByT evs := by
  have hsorted : ∀ acc, SortedByT (sortSliceStable lessT acc) := fun acc =>
    sortSliceStable_ordered TradesQuotesCombined.T acc
  rcases symbolWorker_cases w t symbol fuel errorCount err with ⟨_, hout, _⟩ | ⟨v, hv, _, _, hout, _⟩
  · rw [encoded_of_not_isOutput _ hout] at h
    cases h
  · rw [hv] at h
    simp only [writeArchive_trace, encoded_append, encoded_of_not_isOutput _ hout,
      encoded_writeEvents, List.nil_append, List.mem_singleton] at h
    subst h
    exact ⟨hsorted _, (hsorted _).chain'⟩

/-- The scenario of the specification is a run that hands
`[Quote(T:999), Trade(T:1000,P:10), Trade(T:1000,P:11)]` to the encoder. -/
theorem scenario_encoded :
    encoded (symbolWorker scenarioWorld "2022-12-23" "AAA" 1 0 none).2.trace
      = [[scenarioQ999, scenarioT10, scenarioT11]] := by
  rw [(symbolWorker_chain_encoded scenarioWorld "2022-12-23" "AAA" 1 0 none
    [scenarioTrades] [scenarioQuotes] scenarioTrades_chain scenarioQuotes_chain
    (by decide) (by decide)).1]
  rfl

/-- C1 at the scenario of the specification. -/
theorem archive_sorted_by_T_witness :
    [scenarioQ999, scenarioT10, scenarioT11]
        ∈ encoded (symbolWorker scenarioWorld "2022-12-23" "AAA" 1 0 none).2.trace
      ∧ SortedByT [scenarioQ999, scenarioT10, scenarioT11]
      ∧ AdjacentSortedByT [scenarioQ999, scenarioT10, scenarioT11] :=
  ⟨by rw [scenario_encoded]; exact List.mem_singleton_self _,
    archive_sorted_by_T scenarioWorld "2022-12-23" "AAA" 1 0 none
      [scenarioQ999, scenarioT10, scenarioT11]
      (by rw [scenario_encoded]; exact List.mem_singleton_self _)⟩

/-- C2: the sort is stable with respect to the accumulator. For every
accumulator the events of any one timestamp appear in the output exactly as
they do in the accumulator; tagging each event with its accumulator position,
any two output events with equal `T` have increasing positions. For a worker
over a trades chain and a quotes chain, the accumulator is the trades in page
order followed by the quotes in page order, so at every timestamp the output
lists the trades of that timestamp, in arrival order, before the quotes of
that timestamp, in arrival order. The scenario of the specification yields
`[Quote(T:999), Trade(T:1000,P:10), Trade(T:1000,P:11)]`. -/
theorem sort_is_stable :
    (∀ (acc : List TradesQuotesCombined) (ts : Int),
        (sortSliceStable lessT acc).filter (fun e => decide (e.T = ts))
          = acc.filter (fun e => decide (e.T = ts)))
    ∧ (∀ acc : List TradesQuotesCombined,
        (sortTagged acc).map Prod.snd = sortSliceStable lessT acc
          ∧ (∀ p ∈ sortTagged acc, acc[p.1]? = some p.2)
          ∧ (sortTagged acc).Pairwise (fun p q => p.2.T = q.2.T → p.1 < q.1))
    ∧ (∀ (w : World) (t symbol : String) (fuel : Nat) (errorCount : Int)
        (err : Option String) (tv : List (Visit TradeRecord)) (qv : List (Visit QuoteRecord)),
        IsChain w (tradesEndpoint w) (tradesURL symbol t) tv →
        IsChain w (quotesEndpoint w) (quotesURL symbol t) qv →
        tv.length ≤ fuel → qv.length ≤ fuel →
        encoded (symbolWorker w t symbol fuel errorCount err).2.trace
            = [sortSliceStable lessT (chainEvents (tradesEndpoint w) symbol tv
                ++ chainEvents (quotesEndpoint w) symbol qv)]
          ∧ ∀ ts : Int,
              (sortSliceStable lessT (chainEvents (tradesEndpoint w) symbol tv
                  ++ chainEvents (quotesEndpoint w) symbol qv)).filter
                  (fun e => decide (e.T = ts))
                = (chainEvents (tradesEndpoint w) symbol tv).filter
                    (fun e => decide (e.T = ts))
                  ++ (chainEvents (quotesEndpoint w) symbol qv).filter
                    (fun e => decide (e.T = ts)))
    ∧ encoded (symbolWorker scenarioWorld "2022-12-23" "AAA" 1 0 none).2.trace
        = [[scenarioQ999, scenarioT10, scenarioT11]] := by
  refine ⟨?_, ?_, ?_, scenario_encoded⟩
  · intro acc ts
    exact sortSliceStable_filter TradesQuotesCombined.T ts acc
  · intro acc
    exact ⟨sortTagged_snd acc, sortTagged_position acc, sortTagged_stable acc⟩
  · intro w t symbol fuel errorCount err tv qv ht hq hft hfq
    refine ⟨(symbolWorker_chain_encoded w t symbol fuel errorCount err tv qv ht hq hft hfq).1, ?_⟩
    intro ts
    have := sortSliceStable_filter TradesQuotesCombined.T ts
      (chainEvents (tradesEndpoint w) symbol tv ++ chainEvents (quotesEndpoint w) symbol qv)
    rw [List.filter_append] at this
    exact this

/-- C2 at the scenario of the specification: at timestamp 1000 the output
holds the two trades in arrival order (and no quote). -/
theorem sort_is_stable_witness :
    IsChain scenarioWorld (tradesEndpoint scenarioWorld) (tradesURL "AAA" "2022-12-23")
        [scenarioTrades]
      ∧ IsChain scenarioWorld (quotesEndpoint scenarioWorld) (quotesURL "AAA" "2022-12-23")
        [scenarioQuotes]
      ∧ (sortSliceStable lessT
            (chainEvents (tradesEndpoint scenarioWorld) "AAA" [scenarioTrades]
              ++ chainEvents (quotesEndpoint scenarioWorld) "AAA" [scenarioQuotes])).filter
            (fun e => decide (e.T = 1000))
          = (chainEvents (tradesEndpoint scenarioWorld) "AAA" [scenarioTrades]).filter
              (fun e => decide (e.T = 1000))
            ++ (chainEvents (quotesEndpoint scenarioWorld) "AAA" [scenarioQuotes]).filter
              (fun e => decide (e.T = 1000)) :=
  ⟨scenarioTrades_chain, scenarioQuotes_chain,
    ((sort_is_stable.2.2.1 scenarioWorld "2022-12-23" "AAA" 1 0 none
      [scenarioTrades] [scenarioQuotes] scenarioTrades_chain scenarioQuotes_chain
      (by decide) (by decide)).2 1000)⟩

/-- C3: no event is dropped or duplicated between fetching and encoding. For
a worker over a trades chain and a quotes chain, the fetched pages are those
of the two chains, the one sequence handed to the encoder is a permutation of
the accumulator (the normalised records of all pages), its length is the
number of trade records plus the number of quote records over all pages, and
whatever property one counts events by, as many events have it after the sort
as before: identical events are all retained. -/
theorem no_event_dropped_or_duplicated (w : World) (t symbol : String) (fuel : Nat)
    (errorCount : Int) (err : Option String)
    (tv : List (Visit TradeRecord)) (qv : List (Visit QuoteRecord))
    (ht : IsChain w (tradesEndpoint w) (tradesURL symbol t) tv)
    (hq : IsChain w (quotesEndpoint w) (quotesURL symbol t) qv)
    (hft : tv.length ≤ fuel) (hfq : qv.length ≤ fuel) :
    fetchedURLs (symbolWorker w t symbol fuel errorCount err).2.trace
        = (tv.map fun p => p.url) ++ (qv.map fun p => p.url)
      ∧ encoded (symbolWorker w t symbol fuel errorCount err).2.trace
        = [sortSliceStable lessT (chainEvents (tradesEndpoint w) symbol tv
            ++ chainEvents (quotesEndpoint w) symbol qv)]
      ∧ (sortSliceStable lessT (chainEvents (tradesEndpoint w) symbol tv
            ++ chainEvents (quotesEndpoint w) symbol qv)).Perm
          (chainEvents (tradesEndpoint w) symbol tv
            ++ chainEvents (quotesEndpoint w) symbol qv)
      ∧ (sortSliceStable lessT (chainEvents (tradesEndpoint w) symbol tv
            ++ chainEvents (quotesEndpoint w) symbol qv)).length
          = totalRecords tv + totalRecords qv
      ∧ ∀ p : TradesQuotesCombined → Bool,
          (sortSliceStable lessT (chainEvents (tradesEndpoint w) symbol tv
              ++ chainEvents (quotesEndpoint w) symbol qv)).countP p
            = (chainEvents (tradesEndpoint w) symbol tv
              ++ chainEvents (quotesEndpoint w) symbol qv).countP p := by
  have h := symbolWorker_chain_encoded w t symbol fuel errorCount err tv qv ht hq hft hfq
  have hperm := sortSliceStable_perm lessT
    (chainEvents (tradesEndpoint w) symbol tv ++ chainEvents (quotesEndpoint w) symbol qv)
  refine ⟨h.2, h.1, hperm, ?_, fun p => hperm.countP_eq p⟩
  rw [hperm.length_eq, List.length_append, chainEvents_length, chainEvents_length]

/-- C3 at a data source that lists the same trade twice: both copies reach
the encoder. -/
theorem no_event_dropped_or_duplicated_witness :
    (IsChain duplicateWorld (tradesEndpoint duplicateWorld) (tradesURL "AAA" "2022-12-23")
        [duplicateTrades]
      ∧ IsChain duplicateWorld (quotesEndpoint duplicateWorld) (quotesURL "AAA" "2022-12-23")
        [duplicateQuotes])
      ∧ encoded (symbolWorker duplicateWorld "2022-12-23" "AAA" 1 0 none).2.trace
        = [sortSliceStable lessT
            (chainEvents (tradesEndpoint duplicateWorld) "AAA" [duplicateTrades]
              ++ chainEvents (quotesEndpoint duplicateWorld) "AAA" [duplicateQuotes])]
      ∧ sortSliceStable lessT
          (chainEvents (tradesEndpoint duplicateWorld) "AAA" [duplicateTrades]
            ++ chainEvents (quotesEndpoint duplicateWorld) "AAA" [duplicateQuotes])
        = [scenarioT10, scenarioT10]
      ∧ (sortSliceStable lessT
          (chainEvents (tradesEndpoint duplicateWorld) "AAA" [duplicateTrades]
            ++ chainEvents (quotesEndpoint duplicateWorld) "AAA" [duplicateQuotes])).length
        = totalRecords [duplicateTrades] + totalRecords [duplicateQuotes] :=
  ⟨⟨duplicateTrades_chain, duplicateQuotes_chain⟩,
    (no_event_dropped_or_duplicated duplicateWorld "2022-12-23" "AAA" 1 0 none
      [duplicateTrades] [duplicateQuotes] duplicateTrades_chain duplicateQuotes_chain
      (by decide) (by decide)).2.1,
    rfl,
    (no_event_dropped_or_duplicated duplicateWorld "2022-12-23" "AAA" 1 0 none
      [duplicateTrades] [duplicateQuotes] duplicateTrades_chain duplicateQuotes_chain
      (by decide) (by decide)).2.2.2.1⟩

/-! ## The claims on pagination (C4, C5) -/

theorem chainPages_chain :
    IsChain chainWorld (tradesEndpoint chainWorld) (tradesURL "AAA" "2022-12-23")
      chainPages := by
  refine ⟨rfl, ⟨by decide, rfl, rfl⟩, by decide, "/v3/trades/AAA?cursor=p2", rfl,
    by decide, ?_⟩
  refine ⟨rfl, ⟨by decide, rfl, rfl⟩, by decide, "/v3/trades/AAA?cursor=p3", rfl,
    by decide, ?_⟩
  exact ⟨rfl, ⟨by decide, rfl, rfl⟩, rfl⟩

/-- In a chain every page but the last has a cursor and the last has none. -/
theorem IsChain.cursors {ρ : Type} (w : World) (ep : Endpoint ρ) :
    ∀ (visits : List (Visit ρ)) (url : String), IsChain w ep url visits →
      (∀ p ∈ visits.dropLast, p.page.NextURL ≠ "")
        ∧ (∀ p, visits.getLast? = some p → p.page.NextURL = "")
  | [], _, h => by simp [IsChain] at h
  | [p], _, h => by
    obtain ⟨_, _, hnext⟩ := h
    simp [hnext]
  | p :: q :: rest, _, h => by
    obtain ⟨_, _, hnext, uri, _, _, hrest⟩ := h
    have ih := IsChain.cursors w ep (q :: rest) (cursorURL uri) hrest
    refine ⟨?_, ?_⟩
    · intro p' hp'
      rw [List.dropLast_cons₂] at hp'
      rcases List.mem_cons.mp hp' with rfl | hp'
      · exact hnext
      · exact ih.1 p' hp'
    · intro p' hp'
      rw [List.getLast?_cons_cons] at hp'
      exact ih.2 p' hp'

/-- In a chain every page is served, with status 200, at its URL. -/
theorem IsChain.serves {ρ : Type} (w : World) (ep : Endpoint ρ) :
    ∀ (visits : List (Visit ρ)) (url : String), IsChain w ep url visits →
      ∀ p ∈ visits, Serves w ep p
  | [], _, h => by simp [IsChain] at h
  | [p], _, h => by
    obtain ⟨_, hs, _⟩ := h
    simpa using hs
  | p :: q :: rest, _, h => by
    obtain ⟨_, hs, _, uri, _, _, hrest⟩ := h
    have ih := IsChain.serves w ep (q :: rest) (cursorURL uri) hrest
    intro p' hp'
    rcases List.mem_cons.mp hp' with rfl | hp'
    · exact hs
    · exact ih p' hp'

/-- C4: pagination follows the cursor chain exactly. Over a data source whose
pages form a chain `P1 → ... → Pn → empty cursor` (`n ≥ 1`), all served with
status 200, a pagination loop (the trades loop and the quotes loop are its two
instances) started at the chain's first URL leaves by `break`, fetches the
URLs of `P1, ..., Pn` in that order and nothing else, makes exactly `n`
fetches, and appends the normalised records of `P1, ..., Pn` to the
accumulator in page order; the page it stops at is the first whose `next_url`
is empty. -/
theorem pagination_follows_cursor_chain {ρ : Type} (w : World) (ep : Endpoint ρ)
    (symbol url : String) (visits : List (Visit ρ)) (fuel : Nat) (v : Vars)
    (hchain : IsChain w ep url visits) (hfuel : visits.length ≤ fuel) :
    paginate w ep symbol fuel (firstCursor url) v
        = LoopResult.finished (paginate w ep symbol fuel (firstCursor url) v).vars
      ∧ fetchedURLs (paginate w ep symbol fuel (firstCursor url) v).vars.trace
        = fetchedURLs v.trace ++ visits.map (fun p => p.url)
      ∧ (fetchedURLs (paginate w ep symbol fuel (firstCursor url) v).vars.trace).length
        = (fetchedURLs v.trace).length + visits.length
      ∧ (paginate w ep symbol fuel (firstCursor url) v).vars.tqcombined
        = v.tqcombined ++ chainEvents ep symbol visits
      ∧ 1 ≤ visits.length
      ∧ (∀ p ∈ visits, Serves w ep p)
      ∧ (∀ p ∈ visits.dropLast, p.page.NextURL ≠ "")
      ∧ (∀ p, visits.getLast? = some p → p.page.NextURL = "") := by
  have h := paginate_chain w ep symbol visits fuel (firstCursor url) v
    (by simpa [firstCursor, Cursor.target] using hchain) hfuel
  rw [h]
  have hn : 1 ≤ visits.length := by
    cases visits with
    | nil => simp [IsChain] at hchain
    | cons p rest => simp
  refine ⟨rfl, ?_, ?_, rfl, hn, IsChain.serves w ep visits url hchain,
    (IsChain.cursors w ep visits url hchain).1, (IsChain.cursors w ep visits url hchain).2⟩
  · simp only [LoopResult.vars, fetchedURLs_append, fetchedURLs_chainTrace]
  · simp only [LoopResult.vars, fetchedURLs_append, fetchedURLs_chainTrace,
      List.length_append, List.length_map]

/-- C4 at a three-page chain: three fetches, in chain order. -/
theorem pagination_follows_cursor_chain_witness :
    IsChain chainWorld (tradesEndpoint chainWorld) (tradesURL "AAA" "2022-12-23") chainPages
      ∧ fetchedURLs (paginate chainWorld (tradesEndpoint chainWorld) "AAA" 3
            (firstCursor (tradesURL "AAA" "2022-12-23")) freshVars).vars.trace
          = fetchedURLs freshVars.trace ++ chainPages.map (fun p => p.url)
      ∧ (paginate chainWorld (tradesEndpoint chainWorld) "AAA" 3
            (firstCursor (tradesURL "AAA" "2022-12-23")) freshVars).vars.tqcombined
          = freshVars.tqcombined ++ chainEvents (tradesEndpoint chainWorld) "AAA" chainPages :=
  ⟨chainPages_chain,
    (pagination_follows_cursor_chain chainWorld (tradesEndpoint chainWorld) "AAA"
      (tradesURL "AAA" "2022-12-23") chainPages 3 freshVars chainPages_chain
      (by decide)).2.1,
    (pagination_follows_cursor_chain chainWorld (tradesEndpoint chainWorld) "AAA"
      (tradesURL "AAA" "2022-12-23") chainPages 3 freshVars chainPages_chain
      (by decide)).2.2.2.1⟩

theorem quietTrades_chain :
    IsChain quietWorld (tradesEndpoint quietWorld) (tradesURL "AAA" "2022-12-23")
      [quietTrades] := by
  refine ⟨rfl, ⟨?_, rfl, ?_⟩, rfl⟩
  · decide
  · rfl

theorem fullThenOnePages_chain :
    IsChain fullThenOneWorld (tradesEndpoint fullThenOneWorld) (tradesURL "AAA" "2022-12-23")
      fullThenOnePages := by
  refine ⟨rfl, ⟨by decide, rfl, rfl⟩, by decide, "/v3/trades/AAA?cursor=p2", rfl,
    by decide, ?_⟩
  exact ⟨rfl, ⟨by decide, rfl, rfl⟩, rfl⟩

/-- Pages that are full but for the last one hold at least
`(n - 1) * limit` records plus those of the last page. -/
theorem totalRecords_lower_bound {ρ : Type} (limit : Nat) :
    ∀ visits : List (Visit ρ),
      (∀ p ∈ visits.dropLast, limit ≤ p.page.Results.length) →
      (visits.length - 1) * limit + lastPageRecords visits ≤ totalRecords visits
  | [], _ => by simp [lastPageRecords, totalRecords]
  | [p], _ => by simp [lastPageRecords, totalRecords]
  | p :: q :: rest, hfull => by
    have ih := totalRecords_lower_bound limit (q :: rest)
      (fun p' hp' => hfull p' (by rw [List.dropLast_cons₂]; exact List.mem_cons_of_mem _ hp'))
    have hp : limit ≤ p.page.Results.length :=
      hfull p (by rw [List.dropLast_cons₂]; exact List.mem_cons_self _ _)
    have hlast : lastPageRecords (p :: q :: rest) = lastPageRecords (q :: rest) := by
      simp only [lastPageRecords, List.getLast?_cons_cons]
    rw [hlast]
    simp only [totalRecords, List.map_cons, List.sum_cons, List.length_cons,
      Nat.add_sub_cancel] at ih ⊢
    have hmul : (rest.length + 1) * limit = rest.length * limit + limit := by ring
    omega

/-- C5 as stated fails. A symbol without trades is answered by one page with
no record and no cursor; the loop fetches it (the first fetch is
unconditional) although `ceil(0 / 50000) = 0`. -/
theorem fetch_bound_counterexample :
    IsChain quietWorld (tradesEndpoint quietWorld) (tradesURL "AAA" "2022-12-23")
        [quietTrades]
      ∧ totalRecords [quietTrades] = 0
      ∧ (fetchedURLs (paginate quietWorld (tradesEndpoint quietWorld) "AAA" 1
            (firstCursor (tradesURL "AAA" "2022-12-23")) freshVars).vars.trace).length = 1
      ∧ ¬ ((fetchedURLs (paginate quietWorld (tradesEndpoint quietWorld) "AAA" 1
              (firstCursor (tradesURL "AAA" "2022-12-23")) freshVars).vars.trace).length
            ≤ ceilDiv (totalRecords [quietTrades]) 50000) := by
  have h := paginate_chain quietWorld (tradesEndpoint quietWorld) "AAA" [quietTrades] 1
    (firstCursor (tradesURL "AAA" "2022-12-23")) freshVars quietTrades_chain (by decide)
  have hlen : (fetchedURLs (paginate quietWorld (tradesEndpoint quietWorld) "AAA" 1
      (firstCursor (tradesURL "AAA" "2022-12-23")) freshVars).vars.trace).length = 1 := by
    rw [h]
    simp only [LoopResult.vars, fetchedURLs_append, fetchedURLs_chainTrace]
    rfl
  refine ⟨quietTrades_chain, rfl, hlen, ?_⟩
  rw [hlen]
  decide

/-- C5, amended: over a page chain a pagination loop makes exactly as many
fetches as the chain has pages, at least one. When every page before the last
holds at least `limit` records, that number is at most
`ceil(totalRecords / limit) + 1`, and at most `ceil(totalRecords / limit)` if
the last page holds a record. -/
theorem fetch_count_bounded {ρ : Type} (w : World) (ep : Endpoint ρ)
    (symbol url : String) (visits : List (Visit ρ)) (fuel : Nat) (v : Vars) (limit : Nat)
    (hlimit : 0 < limit)
    (hchain : IsChain w ep url visits) (hfuel : visits.length ≤ fuel)
    (hfull : ∀ p ∈ visits.dropLast, limit ≤ p.page.Results.length) :
    (fetchedURLs (paginate w ep symbol fuel (firstCursor url) v).vars.trace).length
        = (fetchedURLs v.trace).length + visits.length
      ∧ 1 ≤ visits.length
      ∧ visits.length ≤ ceilDiv (totalRecords visits) limit + 1
      ∧ (0 < lastPageRecords visits →
          visits.length ≤ ceilDiv (totalRecords visits) limit) := by
  have h := paginate_chain w ep symbol visits fuel (firstCursor url) v
    (by simpa [firstCursor, Cursor.target] using hchain) hfuel
  have hne : visits ≠ [] := by
    rintro rfl
    simp [IsChain] at hchain
  have hn : 1 ≤ visits.length := List.length_pos.mpr hne
  have hlow := totalRecords_lower_bound limit visits hfull
  have hmul : visits.length * limit = (visits.length - 1) * limit + limit := by
    obtain ⟨k, hk⟩ : ∃ k, visits.length = k + 1 := ⟨visits.length - 1, by omega⟩
    rw [hk]
    simp
    ring
  refine ⟨?_, hn, ?_, ?_⟩
  · rw [h]
    simp only [LoopResult.vars, fetchedURLs_append, fetchedURLs_chainTrace,
      List.length_append, List.length_map]
  · have hle : visits.length - 1 ≤ ceilDiv (totalRecords visits) limit := by
      unfold ceilDiv
      rw [Nat.le_div_iff_mul_le hlimit]
      omega
    omega
  · intro hlast
    unfold ceilDiv
    rw [Nat.le_div_iff_mul_le hlimit]
    omega

/-- C5, amended, at the limit 50000 of `main.go`: a full page of 50000 trades
with a cursor and a page of one trade are fetched in two requests, and
`ceil(50001 / 50000) = 2`. -/
theorem fetch_count_bounded_witness :
    (0 < 50000
      ∧ IsChain fullThenOneWorld (tradesEndpoint fullThenOneWorld)
          (tradesURL "AAA" "2022-12-23") fullThenOnePages
      ∧ fullThenOnePages.length ≤ 2
      ∧ (∀ p ∈ fullThenOnePages.dropLast, 50000 ≤ p.page.Results.length)
      ∧ 0 < lastPageRecords fullThenOnePages)
    ∧ (fetchedURLs (paginate fullThenOneWorld (tradesEndpoint fullThenOneWorld) "AAA" 2
          (firstCursor (tradesURL "AAA" "2022-12-23")) freshVars).vars.trace).length
        = (fetchedURLs freshVars.trace).length + fullThenOnePages.length
    ∧ fullThenOnePages.length ≤ ceilDiv (totalRecords fullThenOnePages) 50000 :=
  have hfull : ∀ p ∈ fullThenOnePages.dropLast, 50000 ≤ p.page.Results.length := by
    intro p hp
    simp only [fullThenOnePages, List.dropLast_cons₂, List.dropLast_single,
      List.mem_singleton] at hp
    subst hp
    simp only [pageWithNext, List.length_replicate, le_refl]
  have hlast : 0 < lastPageRecords fullThenOnePages := by
    simp only [lastPageRecords, fullThenOnePages, List.getLast?_cons_cons,
      List.getLast?_singleton, lastPage, List.length_singleton, Nat.lt_one_iff, zero_lt_one]
  have hthm := fetch_count_bounded fullThenOneWorld (tradesEndpoint fullThenOneWorld) "AAA"
    (tradesURL "AAA" "2022-12-23") fullThenOnePages 2 freshVars 50000 (by decide)
    fullThenOnePages_chain (by decide) hfull
  ⟨⟨by decide, fullThenOnePages_chain, by decide, hfull, hlast⟩, hthm.1, hthm.2.2.2 hlast⟩

/-! ## The claims on failed and suspicious pages (C6, C7) -/

/-- C6: if a page fetch of a worker run, trades or quotes, is answered with
a status other than 200, the run ends in `panic("stopping now")` with
`errorCount` one higher than before, and the worker has performed no action
of the write path: nothing was handed to the encoder and no file was created,
whatever earlier pages had delivered. -/
theorem non_success_aborts_before_write (w : World) (t symbol : String) (fuel : Nat)
    (errorCount : Int) (err : Option String) (url : String)
    (hfetched : url ∈ fetchedURLs (symbolWorker w t symbol fuel errorCount err).2.trace)
    (hstatus : NonSuccess w url) :
    (symbolWorker w t symbol fuel errorCount err).1 = Exit.panicked "stopping now"
      ∧ (symbolWorker w t symbol fuel errorCount err).2.errorCount = errorCount + 1
      ∧ (∀ e ∈ (symbolWorker w t symbol fuel errorCount err).2.trace, e.isOutput = false)
      ∧ encoded (symbolWorker w t symbol fuel errorCount err).2.trace = []
      ∧ ∀ name, Event.create name ∉ (symbolWorker w t symbol fuel errorCount err).2.trace := by
  have hcreate : (∀ e ∈ (symbolWorker w t symbol fuel errorCount err).2.trace,
      e.isOutput = false) →
      ∀ name, Event.create name ∉ (symbolWorker w t symbol fuel errorCount err).2.trace := by
    intro h name hmem
    have := h _ hmem
    simp [Event.isOutput] at this
  rcases symbolWorker_cases w t symbol fuel errorCount err with
    ⟨_, hout, ⟨hgood, _⟩ | ⟨hexit, hcount⟩⟩ | ⟨v, hv, _, _, _, hgood⟩
  · exact absurd hstatus (hgood url hfetched)
  · exact ⟨hexit, hcount, hout, encoded_of_not_isOutput _ hout, hcreate hout⟩
  · rw [hv] at hfetched
    simp only [writeArchive_trace, fetchedURLs_append, fetchedURLs_writeEvents,
      List.append_nil] at hfetched
    exact absurd hstatus (hgood url hfetched)

/-- C6 at a data source that answers the second trades request with HTTP
500: the two trades of the first page are not written. -/
theorem non_success_aborts_before_write_witness :
    (cursorURL "/v3/trades/AAA?cursor=p2"
        ∈ fetchedURLs (symbolWorker failingWorld "2022-12-23" "AAA" 5 0 none).2.trace
      ∧ NonSuccess failingWorld (cursorURL "/v3/trades/AAA?cursor=p2"))
    ∧ (symbolWorker failingWorld "2022-12-23" "AAA" 5 0 none).1 = Exit.panicked "stopping now"
    ∧ (symbolWorker failingWorld "2022-12-23" "AAA" 5 0 none).2.errorCount = 0 + 1
    ∧ (∀ e ∈ (symbolWorker failingWorld "2022-12-23" "AAA" 5 0 none).2.trace,
        e.isOutput = false)
    ∧ encoded (symbolWorker failingWorld "2022-12-23" "AAA" 5 0 none).2.trace = []
    ∧ ∀ name, Event.create name
        ∉ (symbolWorker failingWorld "2022-12-23" "AAA" 5 0 none).2.trace :=
  ⟨⟨by decide, err500, by decide, by decide⟩,
    non_success_aborts_before_write failingWorld "2022-12-23" "AAA" 5 0 none
      (cursorURL "/v3/trades/AAA?cursor=p2") (by decide) ⟨err500, by decide, by decide⟩⟩

theorem dumpHeaders_countP_isWarning (resp : Response) :
    (dumpHeaders resp).countP Event.isWarning = 0 := by
  rw [List.countP_eq_zero]
  intro e he
  simp only [dumpHeaders, List.mem_flatMap, List.mem_map] at he
  obtain ⟨_, _, _, _, rfl⟩ := he
  simp [Event.isWarning]

/-- C7: suspected truncation is advisory only. When a trades or quotes page
is answered with status 200: if it holds exactly 50000 records and no cursor,
the iteration prints exactly one warning line (followed by the header dump),
appends all records of the page to the accumulator and leaves the loop by
`break`, so the loop ends without a further fetch and without abort;
otherwise the iteration prints nothing at all and still appends the page. -/
theorem truncation_is_advisory {ρ : Type} (w : World) (ep : Endpoint ρ) (symbol : String)
    (c : Cursor) (v : Vars) (resp : Response)
    (hget : w.httpGet c.target = Fetched.response resp) (hstatus : resp.StatusCode = 200) :
    ((ep.unmarshal resp.Body).Results.length = 50000 ∧ (ep.unmarshal resp.Body).NextURL = "" →
        loopBody w ep symbol c v
            = Ctl.done
                { v with
                  tqcombined := v.tqcombined
                    ++ (ep.unmarshal resp.Body).Results.map (ep.normalise symbol)
                  trace := v.trace ++ Event.get c.target
                    :: Event.println (Line.possible50k ep.kind c.target) :: dumpHeaders resp }
          ∧ (Event.get c.target :: Event.println (Line.possible50k ep.kind c.target)
              :: dumpHeaders resp).countP Event.isWarning = 1
          ∧ ∀ fuel, paginate w ep symbol (fuel + 1) c v
              = LoopResult.finished
                  { v with
                    tqcombined := v.tqcombined
                      ++ (ep.unmarshal resp.Body).Results.map (ep.normalise symbol)
                    trace := v.trace ++ Event.get c.target
                      :: Event.println (Line.possible50k ep.kind c.target)
                      :: dumpHeaders resp })
      ∧ (¬ ((ep.unmarshal resp.Body).Results.length = 50000
            ∧ (ep.unmarshal resp.Body).NextURL = "") →
          (loopBody w ep symbol c v).vars.trace = v.trace ++ [Event.get c.target]
            ∧ (loopBody w ep symbol c v).vars.tqcombined
              = v.tqcombined ++ (ep.unmarshal resp.Body).Results.map (ep.normalise symbol)) := by
  constructor
  · rintro ⟨hlen, hnext⟩
    have hbody : loopBody w ep symbol c v
        = Ctl.done
            { v with
              tqcombined := v.tqcombined
                ++ (ep.unmarshal resp.Body).Results.map (ep.normalise symbol)
              trace := v.trace ++ Event.get c.target
                :: Event.println (Line.possible50k ep.kind c.target) :: dumpHeaders resp } := by
      rw [loopBody_last w ep symbol c v resp hget hstatus hnext]
      simp [afterPage, truncationWarning, hlen, hnext]
    refine ⟨hbody, ?_, ?_⟩
    · rw [List.countP_cons, List.countP_cons, dumpHeaders_countP_isWarning]
      rfl
    · intro fuel
      simp only [paginate, hbody]
  · intro hnot
    have hwarn : truncationWarning ep.kind c.target resp (ep.unmarshal resp.Body) = [] := by
      simp only [truncationWarning, if_neg hnot]
    by_cases hn : (ep.unmarshal resp.Body).NextURL = ""
    · rw [loopBody_last w ep symbol c v resp hget hstatus hn]
      simp [Ctl.vars, afterPage, hwarn]
    · cases hu : w.requestURI (ep.unmarshal resp.Body).NextURL with
      | error err =>
        rw [loopBody_parseError w ep symbol c v resp err hget hstatus hn hu]
        simp [Ctl.vars, afterPage, hwarn]
      | ok uri =>
        rw [loopBody_more w ep symbol c v resp uri hget hstatus hn hu]
        simp [Ctl.vars, afterPage, hwarn]

/-- C7 at a page of exactly 50000 trades without cursor (one warning, loop
left after a single fetch) and at the two-trade page of the scenario (no
warning). -/
theorem truncation_is_advisory_witness :
    ((fullPageWorld.httpGet (firstCursor (tradesURL "AAA" "2022-12-23")).target
          = Fetched.response fullPageResponse
        ∧ fullPageResponse.StatusCode = 200
        ∧ ((tradesEndpoint fullPageWorld).unmarshal fullPageResponse.Body).Results.length
            = 50000
        ∧ ((tradesEndpoint fullPageWorld).unmarshal fullPageResponse.Body).NextURL = "")
      ∧ (Event.get (firstCursor (tradesURL "AAA" "2022-12-23")).target
            :: Event.println (Line.possible50k (tradesEndpoint fullPageWorld).kind
                (firstCursor (tradesURL "AAA" "2022-12-23")).target)
            :: dumpHeaders fullPageResponse).countP Event.isWarning = 1)
    ∧ ((scenarioWorld.httpGet (firstCursor (tradesURL "AAA" "2022-12-23")).target
          = Fetched.response (ok200 "trades")
        ∧ (ok200 "trades").StatusCode = 200
        ∧ ¬ (((tradesEndpoint scenarioWorld).unmarshal (ok200 "trades").Body).Results.length
              = 50000
            ∧ ((tradesEndpoint scenarioWorld).unmarshal (ok200 "trades").Body).NextURL = ""))
      ∧ (loopBody scenarioWorld (tradesEndpoint scenarioWorld) "AAA"
            (firstCursor (tradesURL "AAA" "2022-12-23")) freshVars).vars.trace
          = freshVars.trace ++ [Event.get (firstCursor (tradesURL "AAA" "2022-12-23")).target]) :=
  have hfull : ((tradesEndpoint fullPageWorld).unmarshal fullPageResponse.Body).Results.length
      = 50000 := by
    rw [show (tradesEndpoint fullPageWorld).unmarshal fullPageResponse.Body
      = lastPage (List.replicate 50000 (tradeAt 1000 f10)) from rfl]
    simp only [lastPage, List.length_replicate]
  have hshort : ¬ (((tradesEndpoint scenarioWorld).unmarshal (ok200 "trades").Body).Results.length
        = 50000
      ∧ ((tradesEndpoint scenarioWorld).unmarshal (ok200 "trades").Body).NextURL = "") := by
    rw [show (tradesEndpoint scenarioWorld).unmarshal (ok200 "trades").Body
      = lastPage [tradeAt 1000 f10, tradeAt 1000 f11] from rfl]
    simp [lastPage]
  ⟨⟨⟨by decide, rfl, hfull, rfl⟩,
      ((truncation_is_advisory fullPageWorld (tradesEndpoint fullPageWorld) "AAA"
        (firstCursor (tradesURL "AAA" "2022-12-23")) freshVars fullPageResponse
        (by decide) rfl).1 ⟨hfull, rfl⟩).2.1⟩,
    ⟨⟨by decide, rfl, hshort⟩,
      ((truncation_is_advisory scenarioWorld (tradesEndpoint scenarioWorld) "AAA"
        (firstCursor (tradesURL "AAA" "2022-12-23")) freshVars (ok200 "trades")
        (by decide) rfl).2 hshort).1⟩⟩

/-! ## The claims on the dispatcher (C8, C9) -/

theorem inFlight_set_released (l : List WorkerStatus) (i : Nat)
    (h : l[i]? = some WorkerStatus.running) :
    (l.set i WorkerStatus.released).countP WorkerStatus.holdsSlot + 1
      = l.countP WorkerStatus.holdsSlot := by
  induction l generalizing i with
  | nil => simp at h
  | cons a l ih =>
    cases i with
    | zero =>
      simp only [List.getElem?_cons_zero, Option.some.injEq] at h
      subst h
      simp [List.set, List.countP_cons, WorkerStatus.holdsSlot]
    | succ i =>
      simp only [List.getElem?_cons_succ] at h
      have := ih i h
      simp only [List.set, List.countP_cons]
      omega

theorem inFlight_set_exiting (l : List WorkerStatus) (i : Nat)
    (h : l[i]? = some WorkerStatus.running) :
    (l.set i WorkerStatus.exiting).countP WorkerStatus.holdsSlot
      = l.countP WorkerStatus.holdsSlot := by
  induction l generalizing i with
  | nil => simp at h
  | cons a l ih =>
    cases i with
    | zero =>
      simp only [List.getElem?_cons_zero, Option.some.injEq] at h
      subst h
      simp [List.set, List.countP_cons, WorkerStatus.holdsSlot]
    | succ i =>
      simp only [List.getElem?_cons_succ] at h
      have := ih i h
      simp only [List.set, List.countP_cons]
      omega

theorem Inv_init (concurrency n : Nat) : Inv concurrency n Sys.init := by
  refine ⟨by simp [Sys.init, inFlight, held], by simp [Sys.init], by simp [Sys.init, started],
    ?_, ?_, ?_⟩ <;> simp [Sys.init]

theorem Inv_step (concurrency n : Nat) (s s' : Sys) (a : Action)
    (hinv : Inv concurrency n s) (hstep : step concurrency n s a = some s') :
    Inv concurrency n s' := by
  obtain ⟨hsem, hcap, hlen, hsend, hspawn, hdrain⟩ := hinv
  cases a with
  | dispatcher =>
    simp only [step] at hstep
    split at hstep
    · cases hstep
    · cases hpc : s.pc with
      | send i =>
        rw [hpc] at hstep
        simp only at hstep
        have hi := hsend i hpc
        simp only [inFlight, held, started, hpc] at hsem hlen
        split at hstep
        · split at hstep
          · cases hstep
            simp only [Inv, inFlight, held, started]
            refine ⟨by omega, by omega, hlen, ?_, ?_, ?_⟩
            · intro j hj; cases hj
            · intro j hj; cases hj; assumption
            · intro j hj; cases hj
          · cases hstep
        · cases hstep
          simp only [Inv, inFlight, held, started]
          refine ⟨by omega, hcap, by omega, ?_, ?_, ?_⟩
          · intro j hj; cases hj
          · intro j hj; cases hj
          · intro j hj; cases hj; omega
      | spawn i =>
        rw [hpc] at hstep
        cases hstep
        have hi := hspawn i hpc
        simp only [inFlight, held, started, hpc] at hsem hlen
        have hrun : [WorkerStatus.running].countP WorkerStatus.holdsSlot = 1 := by decide
        simp only [Inv, inFlight, held, started, List.countP_append, List.length_append,
          List.length_singleton, hrun]
        refine ⟨by omega, hcap, by omega, ?_, ?_, ?_⟩
        · intro j hj; cases hj; omega
        · intro j hj; cases hj
        · intro j hj; cases hj
      | drain i =>
        rw [hpc] at hstep
        simp only at hstep
        have hi := hdrain i hpc
        simp only [inFlight, held, started, hpc] at hsem hlen
        split at hstep
        · split at hstep
          · cases hstep
            simp only [Inv, inFlight, held, started]
            refine ⟨by omega, by omega, hlen, ?_, ?_, ?_⟩
            · intro j hj; cases hj
            · intro j hj; cases hj
            · intro j hj; cases hj; omega
          · cases hstep
        · cases hstep
          simp only [Inv, inFlight, held, started]
          refine ⟨by omega, hcap, hlen, ?_, ?_, ?_⟩
          · intro j hj; cases hj
          · intro j hj; cases hj
          · intro j hj; cases hj
      | dayDone =>
        rw [hpc] at hstep
        cases hstep
  | worker i exit =>
    simp only [step] at hstep
    split at hstep
    · cases hstep
    · split at hstep
      · rename_i hrun
        have hrel := inFlight_set_released s.workers i hrun
        have hexit := inFlight_set_exiting s.workers i hrun
        simp only [inFlight] at hsem
        cases exit with
        | returned =>
          simp only at hstep
          split at hstep
          · cases hstep
            simp only [Inv, inFlight, List.length_set]
            exact ⟨by omega, by omega, hlen, hsend, hspawn, hdrain⟩
          · cases hstep
        | panicked msg =>
          simp only at hstep
          split at hstep
          · cases hstep
            simp only [Inv, inFlight, List.length_set]
            exact ⟨by omega, by omega, hlen, hsend, hspawn, hdrain⟩
          · cases hstep
        | fatal msg =>
          cases hstep
          simp only [Inv, inFlight, List.length_set]
          exact ⟨by omega, hcap, hlen, hsend, hspawn, hdrain⟩
        | outOfFuel => cases hstep
      · cases hstep
  | terminate =>
    simp only [step] at hstep
    split at hstep
    · cases hstep
      exact ⟨hsem, hcap, hlen, hsend, hspawn, hdrain⟩
    · cases hstep

theorem Inv_run (concurrency n : Nat) :
    ∀ (schedule : List Action) (s s' : Sys), Inv concurrency n s →
      run concurrency n s schedule = some s' → Inv concurrency n s'
  | [], s, s', hinv, hrun => by
    simp only [run, Option.some.injEq] at hrun
    subst hrun
    exact hinv
  | a :: rest, s, s', hinv, hrun => by
    simp only [run] at hrun
    cases hstep : step concurrency n s a with
    | none => rw [hstep] at hrun; cases hrun
    | some s1 =>
      rw [hstep] at hrun
      exact Inv_run concurrency n rest s1 s' (Inv_step concurrency n s s1 a hinv hstep) hrun

theorem Inv_of_reachable (concurrency n : Nat) (s : Sys) (h : Reachable concurrency n s) :
    Inv concurrency n s := by
  obtain ⟨schedule, hrun⟩ := h
  exact Inv_run concurrency n schedule Sys.init s (Inv_init concurrency n) hrun

/-- C8: for every number `n` of symbols and every capacity of `sem` (50 in
`main.go`), in every reachable state of the dispatcher and its workers the
number of workers started and not yet released is at most the capacity. This
holds also while a worker's panic or `log.Fatalln` is taking the process down
and the other goroutines still run. -/
theorem in_flight_never_exceeds_ceiling (capacity n : Nat) (s : Sys)
    (h : Reachable capacity n s) : inFlight s ≤ capacity := by
  obtain ⟨hsem, hcap, _⟩ := Inv_of_reachable capacity n s h
  omega

/-- C8 at the capacity of `main.go` with 51 symbols: fifty workers can be in
flight at once, which is within the bound, and the dispatcher then cannot
take its next step. -/
theorem in_flight_never_exceeds_ceiling_witness :
    Reachable concurrency 51
        { pc := Pc.send 50, sem := 50, workers := List.replicate 50 WorkerStatus.running
          dying := false, dead := false }
      ∧ inFlight { pc := Pc.send 50, sem := 50
                   workers := List.replicate 50 WorkerStatus.running
                   dying := false, dead := false }
          ≤ concurrency
      ∧ step concurrency 51
          { pc := Pc.send 50, sem := 50, workers := List.replicate 50 WorkerStatus.running
            dying := false, dead := false } Action.dispatcher = none :=
  ⟨⟨List.replicate 100 Action.dispatcher, by decide⟩,
    in_flight_never_exceeds_ceiling concurrency 51 _
      ⟨List.replicate 100 Action.dispatcher, by decide⟩,
    by decide⟩

/-- C9: in every reachable state in which the dispatcher has left its drain
loop, all `n` workers of the day have been started and every one of them has
released its slot, by returning or while panicking; none is in flight, and
none is inside `log.Fatalln`. -/
theorem drain_is_day_barrier (capacity n : Nat) (s : Sys)
    (h : Reachable capacity n s) (hdone : s.pc = Pc.dayDone) :
    (∀ status ∈ s.workers, status = WorkerStatus.released)
      ∧ inFlight s = 0
      ∧ s.workers.length = n := by
  obtain ⟨hsem, hcap, hlen, _, _, _⟩ := Inv_of_reachable capacity n s h
  simp only [held, started, hdone] at hsem hlen
  have h0 : inFlight s = 0 := by omega
  refine ⟨?_, h0, hlen⟩
  intro status hmem
  have hnone := List.countP_eq_zero.mp h0 status hmem
  simpa [WorkerStatus.holdsSlot] using hnone

/-- C9 at capacity 1 with two symbols, on a schedule in which the first
worker panics: it releases its slot, the dispatcher goes on, starts the second
worker, which returns, and leaves the drain loop before the process is
terminated. -/
theorem drain_is_day_barrier_witness :
    (Reachable 1 2
        { pc := Pc.dayDone, sem := 1
          workers := [WorkerStatus.released, WorkerStatus.released]
          dying := true, dead := false }
      ∧ (Pc.dayDone = Pc.dayDone))
    ∧ (∀ status ∈ [WorkerStatus.released, WorkerStatus.released],
        status = WorkerStatus.released)
    ∧ inFlight { pc := Pc.dayDone, sem := 1
                 workers := [WorkerStatus.released, WorkerStatus.released]
                 dying := true, dead := false } = 0
    ∧ [WorkerStatus.released, WorkerStatus.released].length = 2 :=
  have hreach : Reachable 1 2
      { pc := Pc.dayDone, sem := 1
        workers := [WorkerStatus.released, WorkerStatus.released]
        dying := true, dead := false } :=
    ⟨[Action.dispatcher, Action.dispatcher, Action.worker 0 (Exit.panicked "stopping now"),
      Action.dispatcher, Action.dispatcher, Action.worker 1 Exit.returned,
      Action.dispatcher, Action.dispatcher, Action.dispatcher], by decide⟩
  ⟨⟨hreach, rfl⟩, drain_is_day_barrier 1 2 _ hreach rfl⟩

/-! ## The claim on output failures (C10) -/

/-- The lines the write path prints: the captured `err` as it was when the
worker reached line 511, then the errors of `io.Copy`, `zw.Close()` and
`zfile.Close()`. The error of `os.Create` is not among them. -/
theorem printed_writeEvents (w : World) (t symbol : String) (v : Vars) :
    printed (writeEvents w t symbol v)
      = printed (printIfError v.err)
        ++ printed (printIfError
            (w.ioCopy (zfilename t symbol) (sortSliceStable lessT v.tqcombined)))
        ++ printed (printIfError (w.closeWriter (zfilename t symbol)))
        ++ printed (printIfError (w.closeFile (zfilename t symbol))) := by
  simp only [writeEvents, printed_append]
  simp [printed]

/-- The write path does not depend on what `os.Create` returns. -/
theorem writeArchive_ignores_create (w : World) (create : String → Option String)
    (t symbol : String) (v : Vars) :
    writeArchive { w with osCreate := create } t symbol v = writeArchive w t symbol v := rfl

/-- C10, where the code departs from it. In the scenario of the
specification with an output file that cannot be created, the worker returns
normally, but the error of `os.Create` is not printed: the three lines it
prints are the `invalid argument` errors of `io.Copy` and of the two `Close`
calls on the nil file. The test after `os.Create` reads the variable `err`
captured from the enclosing function instead: a worker whose own output
succeeds prints whatever `io.Copy` error a sibling left there. -/
theorem create_error_is_not_logged :
    createFailsWorld.osCreate (zfilename "2022-12-23" "AAA") = some createError
      ∧ (symbolWorker createFailsWorld "2022-12-23" "AAA" 1 0 none).1 = Exit.returned
      ∧ printed (symbolWorker createFailsWorld "2022-12-23" "AAA" 1 0 none).2.trace
        = [Line.error "invalid argument", Line.error "invalid argument",
           Line.error "invalid argument"]
      ∧ Line.error createError
        ∉ printed (symbolWorker createFailsWorld "2022-12-23" "AAA" 1 0 none).2.trace
      ∧ printed (symbolWorker scenarioWorld "2022-12-23" "AAA" 1 0
            (some "write /scratch/historical/2022-12-23/AAB-2022-12-23.gob.lz4: no space left on device")).2.trace
        = [Line.error "write /scratch/historical/2022-12-23/AAB-2022-12-23.gob.lz4: no space left on device"] := by
  refine ⟨rfl, by decide, by decide, by decide, by decide⟩

/-! ## The claim on normalisation (C11) -/

theorem normaliseTrade_injective (symbol : String) :
    Function.Injective (normaliseTrade symbol) := by
  intro a b h
  cases a
  cases b
  simp only [normaliseTrade, TradesQuotesCombined.mk.injEq] at h
  simp only [TradeRecord.mk.injEq]
  tauto

theorem normaliseQuote_injective (symbol : String) :
    Function.Injective (normaliseQuote symbol) := by
  intro a b h
  cases a
  cases b
  simp only [normaliseQuote, TradesQuotesCombined.mk.injEq] at h
  simp only [QuoteRecord.mk.injEq]
  tauto

/-- C11: normalisation is pure field copying. The event built from a trade
record has `Sym = symbol`, `EV = "T"`, `T` the SIP timestamp, the eleven other
trade fields copied into `TF`, `TQ`, `TY`, `TC`, `TE`, `TI`, `TP`, `TR`, `TS`,
`TX`, `TZ`, and the twelve quote-specific fields at their zero values. The
event built from a quote record has `EV = "Q"`, `T` the SIP timestamp, the
eleven other quote fields copied into `QQ`, `QY`, `QI`, `BX`, `BP`, `BS`,
`AX`, `AP`, `AS`, `BSC`, `BSZ`, and `QF` and the eleven trade-specific fields
at their zero values. These are the maps the two loops of a worker apply. For
a fixed symbol each map is injective, and no trade event equals a quote
event. -/
theorem normalisation_copies_fields (symbol : String) (r : TradeRecord) (q : QuoteRecord) :
    ((normaliseTrade symbol r).Sym = symbol
        ∧ (normaliseTrade symbol r).EV = "T"
        ∧ (normaliseTrade symbol r).T = r.SipTimestamp
        ∧ (normaliseTrade symbol r).TF = r.TrfTimestamp
        ∧ (normaliseTrade symbol r).TQ = r.SequenceNumber
        ∧ (normaliseTrade symbol r).TY = r.ParticipantTimestamp
        ∧ (normaliseTrade symbol r).TC = r.Conditions
        ∧ (normaliseTrade symbol r).TE = r.Correction
        ∧ (normaliseTrade symbol r).TI = r.ID
        ∧ (normaliseTrade symbol r).TP = r.Price
        ∧ (normaliseTrade symbol r).TR = r.TrfID
        ∧ (normaliseTrade symbol r).TS = r.Size
        ∧ (normaliseTrade symbol r).TX = r.Exchange
        ∧ (normaliseTrade symbol r).TZ = r.Tape)
      ∧ ((normaliseTrade symbol r).QF = 0
        ∧ (normaliseTrade symbol r).QQ = 0
        ∧ (normaliseTrade symbol r).QY = 0
        ∧ (normaliseTrade symbol r).QI = none
        ∧ (normaliseTrade symbol r).BX = 0
        ∧ (normaliseTrade symbol r).BP = ⟨0⟩
        ∧ (normaliseTrade symbol r).BS = 0
        ∧ (normaliseTrade symbol r).AX = 0
        ∧ (normaliseTrade symbol r).AP = ⟨0⟩
        ∧ (normaliseTrade symbol r).AS = 0
        ∧ (normaliseTrade symbol r).BSC = none
        ∧ (normaliseTrade symbol r).BSZ = 0)
      ∧ ((normaliseQuote symbol q).Sym = symbol
        ∧ (normaliseQuote symbol q).EV = "Q"
        ∧ (normaliseQuote symbol q).T = q.SipTimestamp
        ∧ (normaliseQuote symbol q).QQ = q.SequenceNumber
        ∧ (normaliseQuote symbol q).QY = q.ParticipantTimestamp
        ∧ (normaliseQuote symbol q).QI = q.Indicators
        ∧ (normaliseQuote symbol q).BX = q.BidExchange
        ∧ (normaliseQuote symbol q).BP = q.BidPrice
        ∧ (normaliseQuote symbol q).BS = q.BidSize
        ∧ (normaliseQuote symbol q).AX = q.AskExchange
        ∧ (normaliseQuote symbol q).AP = q.AskPrice
        ∧ (normaliseQuote symbol q).AS = q.AskSize
        ∧ (normaliseQuote symbol q).BSC = q.Conditions
        ∧ (normaliseQuote symbol q).BSZ = q.Tape)
      ∧ ((normaliseQuote symbol q).QF = 0
        ∧ (normaliseQuote symbol q).TF = 0
        ∧ (normaliseQuote symbol q).TQ = 0
        ∧ (normaliseQuote symbol q).TY = 0
        ∧ (normaliseQuote symbol q).TE = 0
        ∧ (normaliseQuote symbol q).TI = ""
        ∧ (normaliseQuote symbol q).TP = ⟨0⟩
        ∧ (normaliseQuote symbol q).TS = 0
        ∧ (normaliseQuote symbol q).TC = none
        ∧ (normaliseQuote symbol q).TX = 0
        ∧ (normaliseQuote symbol q).TR = 0
        ∧ (normaliseQuote symbol q).TZ = 0)
      ∧ (∀ w : World, (tradesEndpoint w).normalise = normaliseTrade
          ∧ (quotesEndpoint w).normalise = normaliseQuote)
      ∧ Function.Injective (normaliseTrade symbol)
      ∧ Function.Injective (normaliseQuote symbol)
      ∧ ∀ (r' : TradeRecord) (q' : QuoteRecord),
          normaliseTrade symbol r' ≠ normaliseQuote symbol q' := by
  refine ⟨⟨rfl, rfl, rfl, rfl, rfl, rfl, rfl, rfl, rfl, rfl, rfl, rfl, rfl, rfl⟩,
    ⟨rfl, rfl, rfl, rfl, rfl, rfl, rfl, rfl, rfl, rfl, rfl, rfl⟩,
    ⟨rfl, rfl, rfl, rfl, rfl, rfl, rfl, rfl, rfl, rfl, rfl, rfl, rfl, rfl⟩,
    ⟨rfl, rfl, rfl, rfl, rfl, rfl, rfl, rfl, rfl, rfl, rfl, rfl⟩,
    fun _ => ⟨rfl, rfl⟩, normaliseTrade_injective symbol, normaliseQuote_injective symbol, ?_⟩
  intro r' q' h
  have hev := congrArg TradesQuotesCombined.EV h
  simp [normaliseTrade, normaliseQuote] at hev

/-- C11 at the first trade of the scenario: its event is the expected record,
differs from the event of the trade at the other price and from the event of a
quote with the same timestamp. -/
theorem normalisation_copies_fields_witness :
    normaliseTrade "AAA" (tradeAt 1000 f10) = scenarioT10
      ∧ normaliseTrade "AAA" (tradeAt 1000 f10) ≠ normaliseTrade "AAA" (tradeAt 1000 f11)
      ∧ normaliseTrade "AAA" (tradeAt 1000 f10) ≠ normaliseQuote "AAA" (quoteAt 1000 f10) :=
  ⟨rfl,
    fun h => absurd
      ((normalisation_copies_fields "AAA" (tradeAt 1000 f10) (quoteAt 1000 f10)).2.2.2.2.2.1 h)
      (by decide),
    (normalisation_copies_fields "AAA" (tradeAt 1000 f10) (quoteAt 1000 f10)).2.2.2.2.2.2.2
      (tradeAt 1000 f10) (quoteAt 1000 f10)⟩

/-! ## The claim on the output path (C12) -/

/-- Text without a percent sign in front of a format is copied. -/
theorem sprintfChars_text (pre : List Char) (h : '%' ∉ pre) (format : List Char)
    (args : List String) :
    sprintfChars (pre ++ format) args
      = (sprintfChars format args).map fun out => pre ++ out := by
  induction pre with
  | nil => simp
  | cons c pre ih =>
    have hc : c ≠ '%' := fun e => h (by rw [e]; exact List.mem_cons_self _ _)
    have hpre : '%' ∉ pre := fun e => h (List.mem_cons_of_mem _ e)
    rw [List.cons_append, sprintfChars.eq_def]
    simp only [if_neg hc]
    rw [ih hpre]
    cases sprintfChars format args <;> simp

/-- The verbs of `"/%v-%v.gob.lz4"` applied to two arguments. -/
theorem sprintfChars_suffix (symbol t : String) :
    sprintfChars "/%v-%v.gob.lz4".toList [symbol, t]
      = some ("/".toList ++ symbol.toList ++ "-".toList ++ t.toList ++ ".gob.lz4".toList) := by
  simp [sprintfChars]

theorem zfilename_eq_sprintf (t symbol : String) (ht : '%' ∉ t.toList) :
    sprintf (OUTPUTDIR ++ t ++ "/%v-%v.gob.lz4") [symbol, t] = some (zfilename t symbol) := by
  have hpre : '%' ∉ OUTPUTDIR.toList ++ t.toList := by
    intro h
    rcases List.mem_append.mp h with h | h
    · revert h; decide
    · exact ht h
  have hfmt : (OUTPUTDIR ++ t ++ "/%v-%v.gob.lz4").toList
      = (OUTPUTDIR.toList ++ t.toList) ++ "/%v-%v.gob.lz4".toList := by
    simp [String.toList]
  rw [sprintf, hfmt, sprintfChars_text _ hpre, sprintfChars_suffix]
  simp only [Option.map_some', Option.some.injEq]
  apply String.ext
  simp [zfilename, String.toList]

theorem zfilename_injective (t : String) : Function.Injective (zfilename t) := by
  intro a b h
  have h' := congrArg String.data h
  simp only [zfilename, String.data_append, List.append_assoc] at h'
  have h1 := List.append_cancel_left h'
  have h2 := List.append_cancel_left h1
  have h3 := List.append_cancel_left h2
  exact String.ext (List.append_cancel_right h3)

theorem days_without_percent : ∀ d ∈ days, '%' ∉ d.toList := by decide

/-- The only file a worker creates is the one named by `zfilename`. -/
theorem created_file_is_zfilename (w : World) (t symbol : String) (fuel : Nat)
    (errorCount : Int) (err : Option String) (name : String)
    (h : Event.create name ∈ (symbolWorker w t symbol fuel errorCount err).2.trace) :
    name = zfilename t symbol := by
  rcases symbolWorker_cases w t symbol fuel errorCount err with
    ⟨_, hout, _⟩ | ⟨v, hv, _, _, hout, _⟩
  · have := hout _ h
    simp [Event.isOutput] at this
  · rw [hv, writeArchive_trace] at h
    rcases List.mem_append.mp h with h | h
    · have := hout _ h
      simp [Event.isOutput] at this
    · have hprint : ∀ e : Option String, Event.create name ∉ printIfError e := by
        intro e
        cases e <;> simp [printIfError]
      simp only [writeEvents, List.mem_append, List.mem_cons, List.mem_singleton,
        List.not_mem_nil, or_false, false_or, hprint] at h
      simpa using h

/-- C12: one file per symbol and day. For a day without a percent sign (every
day of `main.go` is a date), the `fmt.Sprintf` call of line 508 yields
`OUTPUTDIR ++ day ++ "/" ++ symbol ++ "-" ++ day ++ ".gob.lz4"`; this is the
only path a worker for that symbol and day creates, whatever the data source
and the shared variables hold; and two distinct symbols get distinct paths. -/
theorem one_file_per_symbol_and_day (t symbol : String) (ht : '%' ∉ t.toList) :
    sprintf (OUTPUTDIR ++ t ++ "/%v-%v.gob.lz4") [symbol, t]
        = some (OUTPUTDIR ++ t ++ "/" ++ symbol ++ "-" ++ t ++ ".gob.lz4")
      ∧ zfilename t symbol = OUTPUTDIR ++ t ++ "/" ++ symbol ++ "-" ++ t ++ ".gob.lz4"
      ∧ (∀ (w : World) (fuel : Nat) (errorCount : Int) (err : Option String) (name : String),
          Event.create name ∈ (symbolWorker w t symbol fuel errorCount err).2.trace →
          name = zfilename t symbol)
      ∧ (∀ other : String, other ≠ symbol → zfilename t other ≠ zfilename t symbol)
      ∧ (∀ d ∈ days, '%' ∉ d.toList) :=
  ⟨zfilename_eq_sprintf t symbol ht, rfl,
    fun w fuel errorCount err name h =>
      created_file_is_zfilename w t symbol fuel errorCount err name h,
    fun _ hne h => hne (zfilename_injective t h),
    days_without_percent⟩

/-- C12 at the day of `main.go` and the symbols `AAA` and `AAB`. -/
theorem one_file_per_symbol_and_day_witness :
    '%' ∉ "2022-12-23".toList
      ∧ sprintf (OUTPUTDIR ++ "2022-12-23" ++ "/%v-%v.gob.lz4") ["AAA", "2022-12-23"]
        = some "/scratch/historical/2022-12-23/AAA-2022-12-23.gob.lz4"
      ∧ zfilename "2022-12-23" "AAB" ≠ zfilename "2022-12-23" "AAA" :=
  ⟨by decide,
    (one_file_per_symbol_and_day "2022-12-23" "AAA" (by decide)).1,
    (one_file_per_symbol_and_day "2022-12-23" "AAA" (by decide)).2.2.2.1 "AAB" (by decide)⟩

/-! ## Properties of the aggregator -/

theorem splitBy_loop_done {α : Type} (r : α → α → Bool) :
    ∀ (l : List α) (a : α) (g : List α) (gs : List (List α)),
      List.splitBy.loop r l a g gs = gs.reverse ++ List.splitBy.loop r l a g []
  | [], a, g, gs => by simp [List.splitBy.loop]
  | b :: l, a, g, gs => by
    cases h : r a b with
    | true =>
      simp only [List.splitBy.loop, h]
      exact splitBy_loop_done r l b (a :: g) gs
    | false =>
      simp only [List.splitBy.loop, h]
      rw [splitBy_loop_done r l b [] ((a :: g).reverse :: gs),
        splitBy_loop_done r l b [] [(a :: g).reverse]]
      simp

theorem splitBy_loop_ne_nil {α : Type} (r : α → α → Bool) :
    ∀ (l : List α) (a : α) (g : List α), List.splitBy.loop r l a g [] ≠ []
  | [], a, g => by simp [List.splitBy.loop]
  | b :: l, a, g => by
    cases h : r a b with
    | true =>
      simp only [List.splitBy.loop, h]
      exact splitBy_loop_ne_nil r l b (a :: g)
    | false =>
      simp only [List.splitBy.loop, h]
      rw [splitBy_loop_done r l b [] [(a :: g).reverse]]
      simp

theorem firstTick_zero (zone : Zone) (tick : Tick) :
    firstTick zone tick Bucket.zero = opened zone 1 tick [] := by
  simp [firstTick, Bucket.zero, opened, appendStringIfMissing]

theorem newWindowTick_eq (zone : Zone) (prev tick : Tick) (v : Bucket) :
    newWindowTick zone prev tick v
      = opened zone 0 tick (v.aggregates ++ [savedRecord prev v]) := by
  simp [newWindowTick, opened, appendStringIfMissing]

theorem bucketOf_snoc (zone : Zone) (count : Int) (first : Tick) (more : List Tick)
    (done : List Agg) (tick : Tick) :
    bucketOf zone count first (more ++ [tick]) done
      = sameWindowTick tick (bucketOf zone count first more done) := by
  simp [bucketOf, List.foldl_append]

/-- The fields of the variables within a window. -/
theorem bucketOf_fields (zone : Zone) (count : Int) (first : Tick) (done : List Agg) :
    ∀ more : List Tick,
      (bucketOf zone count first more done).hour = (first.clock zone).hour
        ∧ (bucketOf zone count first more done).minute = (first.clock zone).minute
        ∧ (bucketOf zone count first more done).second = (first.clock zone).second
        ∧ (bucketOf zone count first more done).count = count + more.length
        ∧ (bucketOf zone count first more done).size = volume (first :: more)
        ∧ (bucketOf zone count first more done).aggregates = done := by
  intro more
  induction more using List.reverseRecOn with
  | nil => simp [bucketOf, opened, volume]
  | append_singleton more tick ih =>
    obtain ⟨h1, h2, h3, h4, h5, h6⟩ := ih
    rw [bucketOf_snoc]
    refine ⟨h1, h2, h3, ?_, ?_, h6⟩
    · simp only [sameWindowTick, h4, List.length_append, List.length_singleton]
      push_cast
      ring
    · simp only [sameWindowTick, h5, volume, List.foldl_append, List.foldl_cons,
        List.foldl_nil]

theorem savedRecord_bucketOf (zone : Zone) (count : Int) (first : Tick) (prev : Tick)
    (done : List Agg) :
    ∀ more : List Tick,
      savedRecord prev (bucketOf zone count first more done)
        = savedRecord prev (bucketOf zone count first more []) := by
  intro more
  induction more using List.reverseRecOn with
  | nil => simp [bucketOf, opened, savedRecord]
  | append_singleton more tick ih =>
    simp only [bucketOf_snoc]
    simp only [savedRecord, Agg.mk.injEq] at ih ⊢
    obtain ⟨h1, -, h3, h4, h5, h6, h7, h8, -⟩ := ih
    simp [sameWindowTick, h1, h3, h4, h5, h6, h7, h8]

theorem records_zero (zone : Zone) (ws : List (List Tick)) :
    records zone 0 ws = ws.map (windowRecord zone 0) := by
  cases ws <;> rfl

/-- The loop from inside a window: it saves the records of the current window
and of every later window but the last. -/
theorem tickLoop_records (zone : Zone) :
    ∀ (rest : List Tick) (i : Nat) (ag : Tick) (g : List Tick) (first : Tick)
      (more : List Tick) (count : Int) (done : List Agg),
      0 < i → (ag :: g).reverse = first :: more → first.clock zone = ag.clock zone →
      (tickLoop zone i ag rest (bucketOf zone count first more done)).aggregates
        = done ++ records zone count
            (List.splitBy.loop (sameSecond zone) rest ag g []).dropLast
  | [], i, ag, g, first, more, count, done, _, hcur, _ => by
    simp [tickLoop, List.splitBy.loop, records, (bucketOf_fields zone count first done more).2.2.2.2.2]
  | a :: rest, i, ag, g, first, more, count, done, hi, hcur, hclock => by
    obtain ⟨hh, hm, hs, -, -, hagg⟩ := bucketOf_fields zone count first done more
    have hi0 : i ≠ 0 := by omega
    by_cases hsame : a.clock zone = ag.clock zone
    · have hr : sameSecond zone ag a = true := by simp [sameSecond, hsame]
      have htest : (a.clock zone).hour = (bucketOf zone count first more done).hour
          ∧ (a.clock zone).minute = (bucketOf zone count first more done).minute
          ∧ (a.clock zone).second = (bucketOf zone count first more done).second := by
        rw [hh, hm, hs, hclock, hsame]
        exact ⟨rfl, rfl, rfl⟩
      simp only [tickLoop, tickBody, if_neg hi0, if_pos htest, List.splitBy.loop, hr]
      rw [← bucketOf_snoc]
      exact tickLoop_records zone rest (i + 1) a (ag :: g) first (more ++ [a]) count done
        (by omega) (by rw [List.reverse_cons, hcur]; rfl) (by rw [hclock, hsame])
    · have hr : sameSecond zone ag a = false := by
        simp only [sameSecond, decide_eq_false_iff_not]
        exact fun e => hsame e.symm
      have htest : ¬ ((a.clock zone).hour = (bucketOf zone count first more done).hour
          ∧ (a.clock zone).minute = (bucketOf zone count first more done).minute
          ∧ (a.clock zone).second = (bucketOf zone count first more done).second) := by
        rw [hh, hm, hs, hclock]
        rintro ⟨e1, e2, e3⟩
        apply hsame
        cases hc : a.clock zone
        cases hc' : ag.clock zone
        rw [hc, hc'] at e1 e2 e3
        simp only at e1 e2 e3
        rw [e1, e2, e3]
      have hlast : (first :: more).getLast (List.cons_ne_nil _ _) = ag := by
        have : (first :: more).getLast? = some ag := by
          rw [← hcur]
          simp
        rw [List.getLast?_eq_getLast _ (List.cons_ne_nil _ _)] at this
        exact Option.some.inj this
      have hrec : savedRecord ag (bucketOf zone count first more done)
          = windowRecord zone count ((ag :: g).reverse) := by
        rw [hcur, windowRecord, hlast, savedRecord_bucketOf]
      simp only [tickLoop, tickBody, if_neg hi0, if_neg htest, List.splitBy.loop, hr]
      rw [newWindowTick_eq, hagg, hrec,
        splitBy_loop_done (sameSecond zone) rest a [] [(ag :: g).reverse]]
      have ih := tickLoop_records zone rest (i + 1) a [] a [] 0
        (done ++ [windowRecord zone count ((ag :: g).reverse)]) (by omega) rfl rfl
      have hopen : opened zone 0 a (done ++ [windowRecord zone count ((ag :: g).reverse)])
          = bucketOf zone 0 a [] (done ++ [windowRecord zone count ((ag :: g).reverse)]) := rfl
      rw [hopen, ih, records_zero]
      have hne := splitBy_loop_ne_nil (sameSecond zone) rest a []
      simp only [List.reverse_cons, List.reverse_nil, List.nil_append, List.singleton_append]
      rw [List.dropLast_cons_of_ne_nil hne]
      simp [records]

/-- The records of the aggregator are those of every window but the last. -/
theorem aggregate1s_eq_records (zone : Zone) (results : List Tick) :
    aggregate1s zone results = records zone 1 (windows zone results).dropLast := by
  cases results with
  | nil => rfl
  | cons first rest =>
    have h := tickLoop_records zone rest 1 first [] first [] 1 [] (by omega) rfl rfl
    simp only [List.nil_append] at h
    simp only [aggregate1s, tickLoop, tickBody, if_true, firstTick_zero, windows, List.splitBy]
    exact h

theorem windowRecord_count_volume (zone : Zone) (count : Int) (first : Tick)
    (more : List Tick) :
    (windowRecord zone count (first :: more)).N = count + more.length
      ∧ (windowRecord zone count (first :: more)).V = volume (first :: more) := by
  obtain ⟨-, -, -, h4, h5, -⟩ := bucketOf_fields zone count first [] more
  simp only [windowRecord, savedRecord]
  exact ⟨h4, h5⟩

theorem records_length (zone : Zone) (count : Int) (ws : List (List Tick)) :
    (records zone count ws).length = ws.length := by
  cases ws <;> simp [records]

theorem splitBy_loop_length (zone : Zone) :
    ∀ (rest : List Tick) (ag : Tick) (g : List Tick),
      (List.splitBy.loop (sameSecond zone) rest ag g []).length = changes zone (ag :: rest) + 1
  | [], ag, g => by simp [List.splitBy.loop, changes]
  | a :: rest, ag, g => by
    cases h : sameSecond zone ag a with
    | true =>
      simp only [List.splitBy.loop, h, changes, if_true, Nat.zero_add]
      exact splitBy_loop_length zone rest a (ag :: g)
    | false =>
      simp only [List.splitBy.loop, h, changes]
      rw [splitBy_loop_done, List.length_append, splitBy_loop_length zone rest a []]
      simp
      omega

theorem windows_length (zone : Zone) (results : List Tick) (h : results ≠ []) :
    (windows zone results).length = changes zone results + 1 := by
  cases results with
  | nil => exact absurd rfl h
  | cons first rest => exact splitBy_loop_length zone rest first []

theorem countP_range_succ (p : Nat → Bool) (n : Nat) :
    (List.range (n + 1)).countP p
      = (if p 0 then 1 else 0) + (List.range n).countP (fun i => p (i + 1)) := by
  rw [List.range_succ_eq_map, List.countP_cons, List.countP_map]
  have : (p ∘ Nat.succ) = fun i => p (i + 1) := rfl
  rw [this]
  omega

/-- The test that selects the indices of `windowStarts`. -/
theorem windowStarts_length (zone : Zone) (results : List Tick) :
    (windowStarts zone results).length
      = (List.range results.length).countP fun i =>
          decide (1 ≤ i) && decide ((results[i]?).map (Tick.clock zone)
            ≠ (results[i - 1]?).map (Tick.clock zone)) := by
  rw [windowStarts, List.countP_eq_length_filter]

theorem windowStarts_eq_changes (zone : Zone) :
    ∀ results : List Tick, (windowStarts zone results).length = changes zone results
  | [] => rfl
  | [a] => by
    rw [windowStarts_length]
    simp [changes, List.range_succ]
  | a :: b :: rest => by
    have ih := windowStarts_eq_changes zone (b :: rest)
    rw [windowStarts_length] at ih ⊢
    simp only [List.length_cons] at ih ⊢
    rw [countP_range_succ] at ih
    rw [countP_range_succ, countP_range_succ]
    simp only [changes]
    rw [← ih]
    have hcongr : (List.range rest.length).countP (fun i =>
          decide (1 ≤ i + 1 + 1) && decide (((a :: b :: rest)[i + 1 + 1]?).map (Tick.clock zone)
            ≠ ((a :: b :: rest)[i + 1 + 1 - 1]?).map (Tick.clock zone)))
        = (List.range rest.length).countP (fun i =>
          decide (1 ≤ i + 1) && decide (((b :: rest)[i + 1]?).map (Tick.clock zone)
            ≠ ((b :: rest)[i + 1 - 1]?).map (Tick.clock zone))) := by
      apply List.countP_congr
      intro i _
      simp
    rw [hcongr]
    by_cases hab : a.clock zone = b.clock zone
    · simp [sameSecond, hab]
    · have hba : ¬ b.clock zone = a.clock zone := fun e => hab e.symm
      simp [sameSecond, hab, hba]

theorem changes_eq_zero (zone : Zone) :
    ∀ results : List Tick,
      (∀ a ∈ results, ∀ b ∈ results, a.clock zone = b.clock zone) → changes zone results = 0
  | [], _ => rfl
  | [_], _ => rfl
  | a :: b :: rest, h => by
    have hab : a.clock zone = b.clock zone := h a (by simp) b (by simp)
    have ih := changes_eq_zero zone (b :: rest)
      (fun x hx y hy => h x (List.mem_cons_of_mem _ hx) y (List.mem_cons_of_mem _ hy))
    simp [changes, sameSecond, hab, ih]

/-- The count and the volume of every saved record: the volume sums the sizes
of all ticks of the record's window; the count is the number of those ticks
for the first record and one less for every later record. -/
theorem aggregate1s_count_and_volume (zone : Zone) (results : List Tick) (k : Nat)
    (agg : Agg) (window : List Tick)
    (ha : (aggregate1s zone results)[k]? = some agg)
    (hw : (windows zone results)[k]? = some window) :
    agg.V = volume window
      ∧ agg.N = (window.length : Int) - (if k = 0 then 0 else 1) := by
  have hne : window ≠ [] :=
    List.ne_nil_of_mem_splitBy (sameSecond zone) (List.getElem?_mem hw)
  obtain ⟨first, more, rfl⟩ : ∃ first more, window = first :: more := by
    cases window with
    | nil => exact absurd rfl hne
    | cons a l => exact ⟨a, l, rfl⟩
  rw [aggregate1s_eq_records] at ha
  have hk : k < (windows zone results).dropLast.length := by
    have := (List.getElem?_eq_some_iff.mp ha).1
    rwa [records_length] at this
  have hdrop : (windows zone results).dropLast[k]? = some (first :: more) := by
    rw [List.dropLast_eq_take, List.getElem?_take_of_lt (by simpa [List.dropLast_eq_take] using hk)]
    exact hw
  cases hws : (windows zone results).dropLast with
  | nil => rw [hws] at hk; simp at hk
  | cons w ws =>
    rw [hws] at ha hdrop
    cases k with
    | zero =>
      simp only [records, List.getElem?_cons_zero, Option.some.injEq] at ha hdrop
      subst ha
      subst hdrop
      obtain ⟨h1, h2⟩ := windowRecord_count_volume zone 1 first more
      refine ⟨h2, ?_⟩
      rw [h1]
      simp
      ring
    | succ k =>
      simp only [records, List.getElem?_cons_succ, List.getElem?_map] at ha hdrop
      rw [hdrop] at ha
      simp only [Option.map_some', Option.some.injEq] at ha
      subst ha
      obtain ⟨h1, h2⟩ := windowRecord_count_volume zone 0 first more
      refine ⟨h2, ?_⟩
      rw [h1]
      simp

/-! ## The claims on the aggregator (C13, C14) -/

/-- C13, where the code departs from it. Of four trades, one in the second
14:30:00, two in 14:30:01 and one in 14:30:02, the aggregator saves two
records; the second one sums both trades of 14:30:01 into `V` (200 + 300) but
has `N = 1`: the reset `count = 0` of line 192 leaves out the trade that opens
the window, which the first window counts (`count++` at line 121). -/
theorem tick_count_misses_window_opener :
    (windows utc amcTicks).map (fun window => window.map fun tick => tick.S)
        = [[100], [200, 300], [50]]
      ∧ (aggregate1s utc amcTicks).map (fun agg => (agg.V, agg.N, agg.T))
        = [(100, 1, 1671719400000), (500, 1, 1671719401500)]
      ∧ ((aggregate1s utc amcTicks)[1]?).map (fun agg => agg.N)
        ≠ ((windows utc amcTicks)[1]?).map (fun window => (window.length : Int)) := by
  refine ⟨by decide, by decide, by decide⟩

/-- C14: the aggregator saves a window only when a later tick opens the next
one. For a non-empty tick list the number of records equals the number of
indices `i ≥ 1` whose hour, minute or second differs from that of tick
`i - 1`, which is one less than the number of windows; the records are those
of all windows but the last, so that two tick lists that differ in their last
window only yield the same records; and ticks that all share hour, minute and
second yield no record. -/
theorem records_saved_on_window_change (zone : Zone) (results : List Tick)
    (h : results ≠ []) :
    (aggregate1s zone results).length = (windowStarts zone results).length
      ∧ (aggregate1s zone results).length + 1 = (windows zone results).length
      ∧ aggregate1s zone results = records zone 1 (windows zone results).dropLast
      ∧ (∀ (other : List Tick) (front : List (List Tick)) (final final' : List Tick),
          windows zone results = front ++ [final] →
          windows zone other = front ++ [final'] →
          aggregate1s zone other = aggregate1s zone results)
      ∧ ((∀ a ∈ results, ∀ b ∈ results, a.clock zone = b.clock zone) →
          aggregate1s zone results = []) := by
  have hlen := windows_length zone results h
  have hrec := aggregate1s_eq_records zone results
  have hcount : (aggregate1s zone results).length = changes zone results := by
    rw [hrec, records_length, List.length_dropLast, hlen]
    simp
  refine ⟨by rw [hcount, windowStarts_eq_changes], by rw [hcount, hlen], hrec, ?_, ?_⟩
  · intro other front final final' h1 h2
    rw [aggregate1s_eq_records zone other, hrec, h1, h2]
    simp
  · intro hall
    have h0 := changes_eq_zero zone results hall
    rw [h0] at hcount
    exact List.length_eq_zero.mp hcount

/-- C14 at four trades over three seconds (two records, three windows, window
starts at indices 1 and 3) and at the two trades of one second (no record). -/
theorem records_saved_on_window_change_witness :
    (amcTicks ≠ []
      ∧ ∀ a ∈ oneSecondTicks, ∀ b ∈ oneSecondTicks,
          a.clock utc = b.clock utc)
    ∧ (aggregate1s utc amcTicks).length = (windowStarts utc amcTicks).length
    ∧ windowStarts utc amcTicks = [1, 3]
    ∧ (aggregate1s utc amcTicks).length + 1 = (windows utc amcTicks).length
    ∧ aggregate1s utc oneSecondTicks = [] :=
  ⟨⟨by decide, by decide⟩,
    (records_saved_on_window_change utc amcTicks (by decide)).1,
    by decide,
    (records_saved_on_window_change utc amcTicks (by decide)).2.1,
    (records_saved_on_window_change utc oneSecondTicks (by decide)).2.2.2.2
      (by decide)⟩


end Polygon
